import Mathlib

/-!
Verification development for the gemkit-kits-starter hooks.

The Node.js sources under .gemini/hooks are shallowly embedded here:

* JSON/JavaScript values are modelled by the inductive `JVal`
  (JavaScript `undefined` is modelled as an absent key, i.e. `Option.none`
  at lookup sites; `null` is `JVal.null`).
* JavaScript objects are association lists `List (String × JVal)`;
  the object literal and spread semantics (later keys overwrite earlier
  ones, the first occurrence keeps its position) is modelled by `jSet`.
* Impure inputs (current time, `Math.random`, `process.pid`, file
  contents) are passed as explicit arguments.
* The per-project data directory `~/.gemkit/projects/{projectDir}` is
  modelled as an association list from file key to parsed JSON content.

Every definition mirrors a concrete function of the source files
`gk-config-utils.cjs`, `gk-session-manager.cjs`, `gk-session-init.cjs`,
`gk-session-end.cjs`, `gk-discord-notify.cjs` and `send-discord.cjs`.
-/

/-- JavaScript/JSON values as stored in the config and session files.
Numbers are modelled as integers (all numbers appearing in these files
are integers: pids, exit codes, counters). -/
inductive JVal where
  | null : JVal
  | bool : Bool → JVal
  | num : Int → JVal
  | str : String → JVal
  | arr : List JVal → JVal
  | obj : List (String × JVal) → JVal
deriving Inhabited

/-- Strict comparison with null, `v === null`. -/
def jsIsNull : JVal → Bool
  | .null => true
  | _ => false

/-- JavaScript truthiness of a value (`!v` in the source negates this).
`null`, `false`, `0` and the empty string are falsy; arrays and objects
are always truthy. -/
def truthy : JVal → Bool
  | .null => false
  | .bool b => b
  | .num n => n != 0
  | .str s => s != ""
  | .arr _ => true
  | .obj _ => true

/-- `typeof v === "object"` : true for `null`, arrays and objects. -/
def jsTypeofObject : JVal → Bool
  | .null => true
  | .arr _ => true
  | .obj _ => true
  | _ => false

/-- Is the value an array (`Array.isArray`). -/
def jsIsArray : JVal → Bool
  | .arr _ => true
  | _ => false

/-- Is the value a non-null, non-array object. -/
def jsIsPlainObject : JVal → Bool
  | .obj _ => true
  | _ => false

/-- First binding of key `k` in an association list (JavaScript property
lookup on an object; keys of real JS objects are unique). -/
def jLookup (k : String) : List (String × JVal) → Option JVal
  | [] => none
  | (k', v) :: rest => if k' = k then some v else jLookup k rest

/-- Property access `v[k]`: `none` models JavaScript `undefined`. -/
def jGet (k : String) : JVal → Option JVal
  | .obj fs => jLookup k fs
  | _ => none

/-- `v[k] || d` : the property when present and truthy, else `d`. -/
def jGetOr (k : String) (v : JVal) (d : JVal) : JVal :=
  match jGet k v with
  | some x => if truthy x then x else d
  | none => d

/-- Property assignment `o[k] = v` and object-literal duplicate-key
semantics: overwrite the first binding in place, else append. -/
def jSet (k : String) (v : JVal) : List (String × JVal) → List (String × JVal)
  | [] => [(k, v)]
  | (k', v') :: rest =>
      if k' = k then (k, v) :: rest else (k', v') :: jSet k v rest

/-- Fold a list of bindings into an object field list, later entries
overwriting earlier ones (object literal / spread semantics). -/
def jSetMany (base : List (String × JVal)) (entries : List (String × JVal)) :
    List (String × JVal) :=
  entries.foldl (fun acc (kv : String × JVal) => jSet kv.1 kv.2 acc) base

/-- The fields produced by spreading a value into an object literal,
`{...v}`: objects contribute their fields, arrays their indexed
elements, strings their indexed characters, primitives nothing. -/
def spreadFields : JVal → List (String × JVal)
  | .obj fs => fs
  | .arr xs => (xs.enum.map fun p => (toString p.1, p.2))
  | .str s => (s.toList.enum.map fun p => (toString p.1, JVal.str (String.mk [p.2])))
  | _ => []

/-- Property access `v[k]` through the same member view used by
`Object.keys` and spread (so array elements are reachable by their
index strings, matching `target[key]` in `deepMerge`). -/
def jMember (k : String) (v : JVal) : Option JVal :=
  jLookup k (spreadFields v)

/-- `x || {}` where a missing property counts as undefined. -/
def jTruthyOrEmpty (x : Option JVal) : JVal :=
  match x with
  | some v => if truthy v then v else .obj []
  | none => .obj []

mutual

/-- Embedding of `deepMerge` from gk-config-utils.cjs lines 67-90.
Source values override target values; nested non-null objects are
merged recursively; arrays are replaced by a copy of the source
array; a non-object (or falsy) source returns the target, and a
non-object (or falsy) target returns the source. -/
def deepMerge (target source : JVal) : JVal :=
  if !truthy source || !jsTypeofObject source then target
  else if !truthy target || !jsTypeofObject target then source
  else
    match source with
    | .obj sf => JVal.obj (deepMergeFields target (spreadFields target) sf)
    | .arr xs => JVal.obj (deepMergeElems target (spreadFields target) 0 xs)
    | _ => target

/-- The loop `for (const key of Object.keys(source))` of `deepMerge`
for an object source: `result` starts as `{...target}` and each source
key is assigned into it. -/
def deepMergeFields (target : JVal) (result : List (String × JVal)) :
    List (String × JVal) → List (String × JVal)
  | [] => result
  | (k, sv) :: rest =>
      let v :=
        if jsIsArray sv then sv
        else if !jsIsNull sv && jsTypeofObject sv && !jsIsArray sv then
          deepMerge (jTruthyOrEmpty (jMember k target)) sv
        else sv
      deepMergeFields target (jSet k v result) rest

/-- The same loop when the source is an array (its `Object.keys` are
the index strings and its values the elements). -/
def deepMergeElems (target : JVal) (result : List (String × JVal))
    (i : Nat) : List JVal → List (String × JVal)
  | [] => result
  | sv :: rest =>
      let k := toString i
      let v :=
        if jsIsArray sv then sv
        else if !jsIsNull sv && jsTypeofObject sv && !jsIsArray sv then
          deepMerge (jTruthyOrEmpty (jMember k target)) sv
        else sv
      deepMergeElems target (jSet k v result) (i + 1) rest

end

/-- The value assigned for one source key in the `deepMerge` loop:
arrays are copied, non-null objects recurse, the rest (primitives and
null) is taken from the source. -/
def deepMergeVal (target : JVal) (k : String) (sv : JVal) : JVal :=
  if jsIsArray sv then sv
  else if !jsIsNull sv && jsTypeofObject sv && !jsIsArray sv then
    deepMerge (jTruthyOrEmpty (jMember k target)) sv
  else sv

theorem deepMergeFields_cons (target : JVal) (result : List (String × JVal))
    (k : String) (sv : JVal) (rest : List (String × JVal)) :
    deepMergeFields target result ((k, sv) :: rest) =
      deepMergeFields target (jSet k (deepMergeVal target k sv) result) rest := by
  rw [deepMergeFields, deepMergeVal]

theorem jLookup_jSet_self (k : String) (v : JVal) (fs : List (String × JVal)) :
    jLookup k (jSet k v fs) = some v := by
  induction fs with
  | nil => simp [jSet, jLookup]
  | cons hd tl ih =>
      obtain ⟨k', v'⟩ := hd
      by_cases h : k' = k
      · subst h; simp [jSet, jLookup]
      · simp [jSet, jLookup, h, ih]

theorem jLookup_jSet_ne (k k' : String) (v : JVal) (fs : List (String × JVal))
    (h : k' ≠ k) : jLookup k (jSet k' v fs) = jLookup k fs := by
  induction fs with
  | nil => simp [jSet, jLookup, h]
  | cons hd tl ih =>
      obtain ⟨k'', v''⟩ := hd
      by_cases h2 : k'' = k'
      · subst h2; simp [jSet, jLookup, h]
      · by_cases h3 : k'' = k
        · subst h3; simp [jSet, jLookup, h2]
        · simp [jSet, jLookup, h2, h3, ih]

theorem jLookup_eq_none_of_not_mem (k : String) (fs : List (String × JVal))
    (h : k ∉ fs.map Prod.fst) : jLookup k fs = none := by
  induction fs with
  | nil => rfl
  | cons hd tl ih =>
      obtain ⟨k', v'⟩ := hd
      simp only [List.map_cons, List.mem_cons] at h
      push_neg at h
      have hne : ¬ k' = k := fun hh => h.1 hh.symm
      simp [jLookup, hne, ih h.2]

theorem jLookup_deepMergeFields (target : JVal) (sf : List (String × JVal)) :
    ∀ (r : List (String × JVal)) (k : String),
      (sf.map Prod.fst).Nodup →
      jLookup k (deepMergeFields target r sf) =
        match jLookup k sf with
        | some sv => some (deepMergeVal target k sv)
        | none => jLookup k r := by
  induction sf with
  | nil => intro r k _; simp [deepMergeFields, jLookup]
  | cons hd rest ih =>
      intro r k hnd
      obtain ⟨k', sv⟩ := hd
      simp only [List.map_cons, List.nodup_cons] at hnd
      rw [deepMergeFields_cons]
      by_cases h : k' = k
      · subst h
        have hrest : jLookup k' rest = none :=
          jLookup_eq_none_of_not_mem k' rest hnd.1
        rw [ih _ _ hnd.2, hrest]
        simp [jLookup, jLookup_jSet_self]
      · rw [ih _ _ hnd.2]
        have hl : jLookup k ((k', sv) :: rest) = jLookup k rest := by
          simp [jLookup, h]
        rw [hl]
        cases hrest : jLookup k rest with
        | some sv' => simp
        | none => simp [jLookup_jSet_ne k k' _ r h]

theorem jMember_obj (k : String) (fs : List (String × JVal)) :
    jMember k (JVal.obj fs) = jLookup k fs := rfl

theorem deepMerge_obj_obj (tf sf : List (String × JVal)) :
    deepMerge (JVal.obj tf) (JVal.obj sf) =
      JVal.obj (deepMergeFields (JVal.obj tf) tf sf) := by
  rw [deepMerge]; rfl

theorem jGet_deepMerge_obj (tf sf : List (String × JVal)) (k : String)
    (hnd : (sf.map Prod.fst).Nodup) :
    jGet k (deepMerge (JVal.obj tf) (JVal.obj sf)) =
      match jLookup k sf with
      | some sv => some (deepMergeVal (JVal.obj tf) k sv)
      | none => jLookup k tf := by
  rw [deepMerge_obj_obj]
  show jLookup k (deepMergeFields (JVal.obj tf) tf sf) = _
  rw [jLookup_deepMergeFields (JVal.obj tf) sf tf k hnd]

/-- C8: For every target object and source object, `deepMerge` replaces
any array-valued key of the source entirely (the result holds the
source array itself, never a concatenation with the target array),
recursively merges non-null object-valued keys against the target value
(or `{}` when the target value is missing or falsy), lets source
primitive values including `null` override the target value, and keys
absent from the source keep their target value. -/
theorem claim_C8_deepMerge_semantics (tf sf : List (String × JVal))
    (hnd : (sf.map Prod.fst).Nodup) (k : String) :
    (∀ xs, jLookup k sf = some (JVal.arr xs) →
        jGet k (deepMerge (JVal.obj tf) (JVal.obj sf)) = some (JVal.arr xs)) ∧
    (∀ g, jLookup k sf = some (JVal.obj g) →
        jGet k (deepMerge (JVal.obj tf) (JVal.obj sf)) =
          some (deepMerge (jTruthyOrEmpty (jLookup k tf)) (JVal.obj g))) ∧
    (∀ sv, jLookup k sf = some sv → jsIsArray sv = false →
        jsIsPlainObject sv = false →
        jGet k (deepMerge (JVal.obj tf) (JVal.obj sf)) = some sv) ∧
    (jLookup k sf = none →
        jGet k (deepMerge (JVal.obj tf) (JVal.obj sf)) = jLookup k tf) := by
  refine ⟨?_, ?_, ?_, ?_⟩
  · intro xs h
    rw [jGet_deepMerge_obj tf sf k hnd, h]
    simp [deepMergeVal, jsIsArray]
  · intro g h
    rw [jGet_deepMerge_obj tf sf k hnd, h]
    simp [deepMergeVal, jsIsArray, jsIsNull, jsTypeofObject, jMember_obj]
  · intro sv h harr hobj
    rw [jGet_deepMerge_obj tf sf k hnd, h]
    cases sv <;> simp_all [deepMergeVal, jsIsArray, jsIsPlainObject, jsIsNull,
      jsTypeofObject]
  · intro h
    rw [jGet_deepMerge_obj tf sf k hnd, h]

/-- Witness for C8 at a concrete target and source: the source array
replaces the target array wholesale. -/
theorem claim_C8_witness :
    ((([("arr", JVal.arr [JVal.num 2]), ("p", JVal.null)] :
        List (String × JVal)).map Prod.fst).Nodup) ∧
    jGet "arr" (deepMerge
        (JVal.obj [("a", JVal.num 1), ("arr", JVal.arr [JVal.num 1])])
        (JVal.obj [("arr", JVal.arr [JVal.num 2]), ("p", JVal.null)])) =
      some (JVal.arr [JVal.num 2]) :=
  ⟨by decide,
   (claim_C8_deepMerge_semantics
      [("a", JVal.num 1), ("arr", JVal.arr [JVal.num 1])]
      [("arr", JVal.arr [JVal.num 2]), ("p", JVal.null)]
      (by decide) "arr").1 [JVal.num 2] rfl⟩

/-- Is the value a string (`typeof v === "string"`). -/
def jsIsString : JVal → Bool
  | .str _ => true
  | _ => false

/-- Truthiness of a possibly-undefined value. -/
def truthyO : Option JVal → Bool
  | some v => truthy v
  | none => false

/-- Spread of a possibly-undefined value (`{...undefined}` is `{}`). -/
def spreadFieldsO : Option JVal → List (String × JVal)
  | some v => spreadFields v
  | none => []

/-- The `plan` section of `DEFAULT_CONFIG` (gk-config-utils.cjs lines 31-40). -/
def defaultPlanV : JVal :=
  JVal.obj
    [("namingFormat", JVal.str "{date}-{issue}-{slug}"),
     ("dateFormat", JVal.str "YYMMDD-HHmm"),
     ("issuePrefix", JVal.null),
     ("reportsDir", JVal.str "reports"),
     ("resolution", JVal.obj
        [("order", JVal.arr [JVal.str "session", JVal.str "branch"]),
         ("branchPattern",
          JVal.str "(?:feat|fix|chore|refactor|docs)/(?:[^/]+/)?(.+)")])]

/-- The `paths` section of `DEFAULT_CONFIG`. -/
def defaultPathsV : JVal :=
  JVal.obj [("docs", JVal.str "docs"), ("plans", JVal.str "plans")]

/-- The `locale` section of `DEFAULT_CONFIG`. -/
def defaultLocaleV : JVal := JVal.obj [("responseLanguage", JVal.null)]

/-- The `trust` section of `DEFAULT_CONFIG`. -/
def defaultTrustV : JVal :=
  JVal.obj [("passphrase", JVal.null), ("enabled", JVal.bool false)]

/-- The `project` section of `DEFAULT_CONFIG`. -/
def defaultProjectV : JVal :=
  JVal.obj
    [("type", JVal.str "auto"), ("packageManager", JVal.str "auto"),
     ("framework", JVal.str "auto")]

/-- The fields of `DEFAULT_CONFIG`. -/
def DEFAULT_CONFIG_fields : List (String × JVal) :=
  [("plan", defaultPlanV), ("paths", defaultPathsV),
   ("locale", defaultLocaleV), ("trust", defaultTrustV),
   ("project", defaultProjectV), ("assertions", JVal.arr [])]

/-- Embedding of `DEFAULT_CONFIG` from gk-config-utils.cjs lines 30-58. -/
def DEFAULT_CONFIG : JVal := JVal.obj DEFAULT_CONFIG_fields

/-- Split a character list at every slash (the list-level counterpart
of splitting a path string on `/`). -/
def splitOnSlash : List Char → List (List Char)
  | [] => [[]]
  | c :: cs =>
      if c = '/' then [] :: splitOnSlash cs
      else
        match splitOnSlash cs with
        | [] => [[c]]
        | p :: ps => (c :: p) :: ps

/-- Join path segments with slashes (the inverse direction of
`splitOnSlash`). -/
def joinSlash : List (List Char) → List Char
  | [] => []
  | [p] => p
  | p :: ps => p ++ '/' :: joinSlash ps

/-- Normalize POSIX path segments: empty and dot segments vanish, a
dot-dot pops the previous segment (never above the root). The
accumulator holds the processed segments in reverse. -/
def posixNormSegs (acc : List (List Char)) : List (List Char) → List (List Char)
  | [] => acc.reverse
  | seg :: rest =>
      if seg = [] || seg = ['.'] then posixNormSegs acc rest
      else if seg = ['.', '.'] then posixNormSegs (acc.drop 1) rest
      else posixNormSegs (seg :: acc) rest

/-- Does the character list start with a slash (an absolute POSIX path). -/
def charsIsAbsolute : List Char → Bool
  | '/' :: _ => true
  | _ => false

/-- Model of Node `path.resolve(root, p)` on POSIX for an absolute
root: an absolute `p` wins, otherwise `p` is joined onto `root`, and
the result is normalized with no trailing slash. Strings are handled
as their character lists. -/
def pathResolveChars (root p : List Char) : List Char :=
  let base := if charsIsAbsolute p then p else root ++ '/' :: p
  '/' :: joinSlash (posixNormSegs [] (splitOnSlash base))

/-- `String` wrapper for `pathResolveChars`, modelling
`path.resolve(root, p)`. -/
def pathResolve (root p : String) : String :=
  String.mk (pathResolveChars root.toList p.toList)

/-- Embedding of `sanitizePath` from gk-config-utils.cjs lines 283-290:
non-strings and falsy values pass through unchanged; a string that
resolves outside the project root becomes `null` (`path.sep` is `/` in
this POSIX model). `none` models an undefined argument. String prefix
and equality tests are carried out on the character lists. -/
def sanitizePath (pathValue : Option JVal) (projectRoot : String) : Option JVal :=
  match pathValue with
  | some (.str s) =>
      if s = "" then some (JVal.str s)
      else
        let resolved := pathResolveChars projectRoot.toList s.toList
        let inside :=
          List.isPrefixOf (projectRoot.toList ++ ['/']) resolved ||
            resolved == projectRoot.toList
        if !inside then some JVal.null else some (JVal.str s)
  | other => other

/-- Embedding of `sanitizeConfig` from gk-config-utils.cjs lines
295-325: copies the config, replaces `plan.reportsDir`, `paths.docs`
and `paths.plans` by their defaults when sanitization fails, and
merges `plan.resolution` over the default resolution. -/
def sanitizeConfig (config : JVal) (projectRoot : String) : JVal :=
  let result := spreadFields config
  let result :=
    if truthyO (jLookup "plan" result) then
      let planF := spreadFieldsO (jLookup "plan" result)
      let planF :=
        if !truthyO (sanitizePath (jLookup "reportsDir" planF) projectRoot) then
          jSet "reportsDir" (JVal.str "reports") planF
        else planF
      let planF :=
        jSet "resolution"
          (JVal.obj (jSetMany
            [("order", JVal.arr [JVal.str "session", JVal.str "branch"]),
             ("branchPattern",
              JVal.str "(?:feat|fix|chore|refactor|docs)/(?:[^/]+/)?(.+)")]
            (spreadFieldsO (jLookup "resolution" planF)))) planF
      jSet "plan" (JVal.obj planF) result
    else result
  let result :=
    if truthyO (jLookup "paths" result) then
      let pf := spreadFieldsO (jLookup "paths" result)
      let pf :=
        if !truthyO (sanitizePath (jLookup "docs" pf) projectRoot) then
          jSet "docs" (JVal.str "docs") pf
        else pf
      let pf :=
        if !truthyO (sanitizePath (jLookup "plans" pf) projectRoot) then
          jSet "plans" (JVal.str "plans") pf
        else pf
      jSet "paths" (JVal.obj pf) result
    else result
  let result :=
    if truthyO (jLookup "locale" result) then
      jSet "locale" (JVal.obj (spreadFieldsO (jLookup "locale" result))) result
    else result
  JVal.obj result

/-- Embedding of `getDefaultConfig` from gk-config-utils.cjs lines
394-409 (note: it contains no `trust` section). -/
def getDefaultConfig (includeProject includeAssertions includeLocale : Bool) :
    JVal :=
  let result := [("plan", defaultPlanV), ("paths", defaultPathsV)]
  let result :=
    if includeLocale then jSet "locale" defaultLocaleV result else result
  let result :=
    if includeProject then jSet "project" defaultProjectV result else result
  let result :=
    if includeAssertions then jSet "assertions" (JVal.arr []) result else result
  JVal.obj result

/-- The merge cascade of `loadConfig` (gk-config-utils.cjs lines
353-357): `deepMerge({}, DEFAULT_CONFIG)`, then the global config when
truthy, then the local config when truthy. -/
def mergedConfig (globalConfig localConfig : JVal) : JVal :=
  let merged := deepMerge (JVal.obj []) DEFAULT_CONFIG
  let merged :=
    if truthy globalConfig then deepMerge merged globalConfig else merged
  if truthy localConfig then deepMerge merged localConfig else merged

/-- The result object built by `loadConfig` (lines 360-383) from the
merged configuration: the recognized sections, with `locale`,
`project` and `assertions` controlled by the options and `spawn` and
`notifications` passed through when present. -/
def loadConfigSections (includeProject includeAssertions includeLocale : Bool)
    (merged : JVal) : List (String × JVal) :=
  let result :=
    [("plan", jGetOr "plan" merged defaultPlanV),
     ("paths", jGetOr "paths" merged defaultPathsV)]
  let result :=
    if includeLocale then
      jSet "locale" (jGetOr "locale" merged defaultLocaleV) result
    else result
  let result := jSet "trust" (jGetOr "trust" merged defaultTrustV) result
  let result :=
    if includeProject then
      jSet "project" (jGetOr "project" merged defaultProjectV) result
    else result
  let result :=
    if includeAssertions then
      jSet "assertions" (jGetOr "assertions" merged (JVal.arr [])) result
    else result
  let result :=
    if truthyO (jGet "spawn" merged) then
      jSet "spawn" ((jGet "spawn" merged).getD JVal.null) result
    else result
  if truthyO (jGet "notifications" merged) then
    jSet "notifications" ((jGet "notifications" merged).getD JVal.null) result
  else result

/-- Embedding of `loadConfig` from gk-config-utils.cjs lines 340-389.
The parsed global and local config files are passed in (`JVal.null`
models a missing or unparseable file, as `loadConfigFromPath` returns
`null` for those); `projectRoot` models `process.cwd()`. -/
def loadConfig (includeProject includeAssertions includeLocale : Bool)
    (projectRoot : String) (globalConfig localConfig : JVal) : JVal :=
  if !truthy globalConfig && !truthy localConfig then
    getDefaultConfig includeProject includeAssertions includeLocale
  else
    sanitizeConfig
      (JVal.obj (loadConfigSections includeProject includeAssertions
        includeLocale (mergedConfig globalConfig localConfig)))
      projectRoot

theorem deepMerge_empty_default :
    deepMerge (JVal.obj []) DEFAULT_CONFIG = DEFAULT_CONFIG := by
  simp [DEFAULT_CONFIG, DEFAULT_CONFIG_fields, defaultPlanV, defaultPathsV,
    defaultLocaleV, defaultTrustV, defaultProjectV, deepMerge, deepMergeFields,
    deepMergeVal, spreadFields, truthy, jsTypeofObject, jsIsArray, jsIsNull,
    jSet, jMember, jLookup, jTruthyOrEmpty]

theorem jGet_sanitizeConfig_other (cfg : JVal) (root : String) (k : String)
    (h1 : "plan" ≠ k) (h2 : "paths" ≠ k) (h3 : "locale" ≠ k) :
    jGet k (sanitizeConfig cfg root) = jLookup k (spreadFields cfg) := by
  rw [sanitizeConfig]
  split_ifs <;>
    simp [jGet, jLookup_jSet_ne _ _ _ _ h1, jLookup_jSet_ne _ _ _ _ h2,
      jLookup_jSet_ne _ _ _ _ h3]

theorem jLookup_loadConfigSections_other (ip ia il : Bool) (merged : JVal)
    (k : String) (h1 : "plan" ≠ k) (h2 : "paths" ≠ k) (h3 : "locale" ≠ k)
    (h4 : "trust" ≠ k) (h5 : "project" ≠ k) (h6 : "assertions" ≠ k)
    (h7 : "spawn" ≠ k) (h8 : "notifications" ≠ k) :
    jLookup k (loadConfigSections ip ia il merged) = none := by
  rw [loadConfigSections]
  split_ifs <;>
    simp [jLookup, jLookup_jSet_ne _ _ _ _ h3, jLookup_jSet_ne _ _ _ _ h4,
      jLookup_jSet_ne _ _ _ _ h5, jLookup_jSet_ne _ _ _ _ h6,
      jLookup_jSet_ne _ _ _ _ h7, jLookup_jSet_ne _ _ _ _ h8, h1, h2, h3, h4,
      h5, h6, h7, h8]

/-- C1, counterexample: `loadConfig` does not return the deep merge of
the three layers. With no global config and a local config consisting
of the single unrecognized key `extra`, the deep merge
defaults-then-global-then-local keeps `extra`, but `loadConfig` drops
it, so the two objects differ. -/
theorem claim_C1_counterexample :
    jGet "extra" (loadConfig true true true "/proj" JVal.null
        (JVal.obj [("extra", JVal.num 1)])) = none ∧
    jGet "extra" (mergedConfig JVal.null (JVal.obj [("extra", JVal.num 1)])) =
      some (JVal.num 1) ∧
    loadConfig true true true "/proj" JVal.null
        (JVal.obj [("extra", JVal.num 1)]) ≠
      mergedConfig JVal.null (JVal.obj [("extra", JVal.num 1)]) := by
  have h1 : jGet "extra" (loadConfig true true true "/proj" JVal.null
      (JVal.obj [("extra", JVal.num 1)])) = none := by
    rw [loadConfig]
    norm_num [truthy]
    rw [jGet_sanitizeConfig_other _ _ _ (by decide) (by decide) (by decide)]
    have hne1 : "locale" ≠ "extra" := by decide
    have hne2 : "trust" ≠ "extra" := by decide
    exact jLookup_loadConfigSections_other _ _ _ _ _ (by decide) (by decide)
      hne1 hne2 (by decide) (by decide) (by decide) (by decide)
  have h2 : jGet "extra"
      (mergedConfig JVal.null (JVal.obj [("extra", JVal.num 1)])) =
      some (JVal.num 1) := by
    simp [mergedConfig, DEFAULT_CONFIG, DEFAULT_CONFIG_fields, defaultPlanV,
      defaultPathsV, defaultLocaleV, defaultTrustV, defaultProjectV, deepMerge,
      deepMergeFields, deepMergeVal, spreadFields, truthy, jsTypeofObject,
      jsIsArray, jsIsNull, jSet, jMember, jLookup, jGet, jTruthyOrEmpty]
  refine ⟨h1, h2, fun h => ?_⟩
  have hc := congrArg (jGet "extra") h
  rw [h1, h2] at hc
  exact Option.noConfusion hc

/-- C1, amended: `loadConfig` computes the deep merge cascade
DEFAULT_CONFIG, then global, then local, but returns only the
recognized sections of that merge (plan, paths, trust, plus locale,
project, assertions per options, and spawn/notifications when
present), path-sanitized against the project root. Within the merged
configuration the precedence is as claimed: a local non-object value
overrides, local nested objects merge recursively over the
global-over-default layer, keys absent locally fall back to that
layer, where a global non-object value overrides and keys absent in
both layers take the default value. -/
theorem claim_C1_amended (ip ia il : Bool) (root : String)
    (gf lf : List (String × JVal))
    (hg : (gf.map Prod.fst).Nodup) (hl : (lf.map Prod.fst).Nodup) :
    (loadConfig ip ia il root (JVal.obj gf) (JVal.obj lf) =
      sanitizeConfig (JVal.obj (loadConfigSections ip ia il
        (mergedConfig (JVal.obj gf) (JVal.obj lf)))) root) ∧
    (∀ k sv, jLookup k lf = some sv → jsIsPlainObject sv = false →
      jGet k (mergedConfig (JVal.obj gf) (JVal.obj lf)) = some sv) ∧
    (∀ k sf, jLookup k lf = some (JVal.obj sf) →
      jGet k (mergedConfig (JVal.obj gf) (JVal.obj lf)) =
        some (deepMerge
          (jTruthyOrEmpty (jGet k (mergedConfig (JVal.obj gf) JVal.null)))
          (JVal.obj sf))) ∧
    (∀ k, jLookup k lf = none →
      jGet k (mergedConfig (JVal.obj gf) (JVal.obj lf)) =
        jGet k (mergedConfig (JVal.obj gf) JVal.null)) ∧
    (∀ k sv, jLookup k lf = none → jLookup k gf = some sv →
      jsIsPlainObject sv = false →
      jGet k (mergedConfig (JVal.obj gf) (JVal.obj lf)) = some sv) ∧
    (∀ k, jLookup k lf = none → jLookup k gf = none →
      jGet k (mergedConfig (JVal.obj gf) (JVal.obj lf)) =
        jGet k DEFAULT_CONFIG) := by
  have hgobj : mergedConfig (JVal.obj gf) JVal.null =
      JVal.obj (deepMergeFields (JVal.obj DEFAULT_CONFIG_fields)
        DEFAULT_CONFIG_fields gf) := by
    have : mergedConfig (JVal.obj gf) JVal.null =
        deepMerge DEFAULT_CONFIG (JVal.obj gf) := by
      simp [mergedConfig, truthy, deepMerge_empty_default]
    rw [this]
    show deepMerge (JVal.obj DEFAULT_CONFIG_fields) (JVal.obj gf) = _
    rw [deepMerge_obj_obj]
  have hML : mergedConfig (JVal.obj gf) (JVal.obj lf) =
      deepMerge (mergedConfig (JVal.obj gf) JVal.null) (JVal.obj lf) := by
    simp [mergedConfig, truthy]
  have key : ∀ k, jGet k (mergedConfig (JVal.obj gf) (JVal.obj lf)) =
      match jLookup k lf with
      | some sv => some (deepMergeVal (JVal.obj (deepMergeFields
          (JVal.obj DEFAULT_CONFIG_fields) DEFAULT_CONFIG_fields gf)) k sv)
      | none => jLookup k (deepMergeFields (JVal.obj DEFAULT_CONFIG_fields)
          DEFAULT_CONFIG_fields gf) := by
    intro k
    rw [hML, hgobj, jGet_deepMerge_obj _ _ _ hl]
  refine ⟨by simp [loadConfig, truthy], ?_, ?_, ?_, ?_, ?_⟩
  · intro k sv hsv hobj
    rw [key k, hsv]
    cases sv <;> simp_all [deepMergeVal, jsIsArray, jsIsNull, jsTypeofObject,
      jsIsPlainObject]
  · intro k sf hsf
    rw [key k, hsf, hgobj]
    simp [deepMergeVal, jsIsArray, jsIsNull, jsTypeofObject, jMember,
      spreadFields, jGet]
  · intro k hnone
    rw [key k, hnone, hgobj]
    simp [jGet]
  · intro k sv hnone hsv hobj
    rw [key k, hnone,
      jLookup_deepMergeFields (JVal.obj DEFAULT_CONFIG_fields) gf
        DEFAULT_CONFIG_fields k hg, hsv]
    cases sv <;> simp_all [deepMergeVal, jsIsArray, jsIsNull, jsTypeofObject,
      jsIsPlainObject]
  · intro k hnl hng
    rw [key k, hnl,
      jLookup_deepMergeFields (JVal.obj DEFAULT_CONFIG_fields) gf
        DEFAULT_CONFIG_fields k hg, hng]
    simp [DEFAULT_CONFIG, jGet]

/-- Witness for the amended C1 at a concrete global and local config:
the key set in both layers takes the local value. -/
theorem claim_C1_witness :
    jLookup "a" [("a", JVal.num 2)] = some (JVal.num 2) ∧
    jGet "a" (mergedConfig (JVal.obj [("a", JVal.num 1)])
      (JVal.obj [("a", JVal.num 2)])) = some (JVal.num 2) :=
  ⟨rfl,
   ((claim_C1_amended true true true "/proj" [("a", JVal.num 1)]
      [("a", JVal.num 2)] (by decide) (by decide)).2.1) "a" (JVal.num 2)
     rfl rfl⟩

/-- Decimal digit characters of `n`, most significant first: the
rendering of the non-negative integer `pid` inside a JS template
literal. -/
def natDecChars (n : Nat) : List Char :=
  if n = 0 then ['0'] else ((Nat.digits 10 n).map Nat.digitChar).reverse

/-- String form of `natDecChars`. -/
def natDecStr (n : Nat) : String := String.mk (natDecChars n)

/-- Numeric value of a decimal digit character. -/
def digitVal (c : Char) : Nat := c.toNat - 48

/-- `parseInt(s, 10)` on a string of decimal digits. -/
def parseIntDec (cs : List Char) : Nat :=
  cs.foldl (fun a c => 10 * a + digitVal c) 0

theorem natDecChars_ne_nil (n : Nat) : natDecChars n ≠ [] := by
  unfold natDecChars
  split
  · simp
  · simp_all [Nat.digits_ne_nil_iff_ne_zero]

theorem digitChar_isDigit (d : Nat) (h : d < 10) :
    (Nat.digitChar d).isDigit = true := by
  interval_cases d <;> decide

theorem digitVal_digitChar (d : Nat) (h : d < 10) :
    digitVal (Nat.digitChar d) = d := by
  interval_cases d <;> decide

theorem natDecChars_all_digit (n : Nat) :
    ∀ c ∈ natDecChars n, c.isDigit = true := by
  intro c hc
  unfold natDecChars at hc
  split at hc
  · simp at hc; subst hc; decide
  · simp only [List.mem_reverse, List.mem_map] at hc
    obtain ⟨d, hd, rfl⟩ := hc
    exact digitChar_isDigit d (Nat.digits_lt_base (by norm_num) hd)

theorem foldl_digitChars (L : List Nat) (hL : ∀ d ∈ L, d < 10) :
    ∀ acc : Nat,
      List.foldl (fun a c => 10 * a + digitVal c) acc
          ((L.map Nat.digitChar).reverse) =
        acc * 10 ^ L.length + Nat.ofDigits 10 L := by
  induction L with
  | nil => intro acc; simp
  | cons d L ih =>
      intro acc
      have hd : d < 10 := hL d (by simp)
      have hL2 : ∀ x ∈ L, x < 10 := fun x hx => hL x (by simp [hx])
      simp only [List.map_cons, List.reverse_cons, List.foldl_append,
        List.foldl_cons, List.foldl_nil]
      rw [ih hL2 acc, digitVal_digitChar d hd, Nat.ofDigits_cons]
      simp only [List.length_cons, pow_succ]
      ring

theorem parseIntDec_natDecChars (n : Nat) : parseIntDec (natDecChars n) = n := by
  unfold parseIntDec natDecChars
  split
  · simp_all [digitVal]
  · rw [foldl_digitChars _ (fun d hd => Nat.digits_lt_base (by norm_num) hd) 0]
    simp [Nat.ofDigits_digits]

/-- Split a character list at every hyphen. -/
def splitDash : List Char → List (List Char)
  | [] => [[]]
  | c :: cs =>
      if c = '-' then [] :: splitDash cs
      else
        match splitDash cs with
        | [] => [[c]]
        | p :: ps => (c :: p) :: ps

/-- Join character-list segments with hyphens. -/
def joinDash : List (List Char) → List Char
  | [] => []
  | [p] => p
  | p :: ps => p ++ '-' :: joinDash ps

theorem splitDash_ne_nil (l : List Char) : splitDash l ≠ [] := by
  induction l with
  | nil => simp [splitDash]
  | cons c cs ih =>
      rw [splitDash]
      split
      · simp
      · cases h : splitDash cs with
        | nil => simp
        | cons p ps => simp

theorem splitDash_cons_of_cons (c : Char) (cs : List Char) (p : List Char)
    (ps : List (List Char)) (hc : ¬ c = '-') (h : splitDash cs = p :: ps) :
    splitDash (c :: cs) = (c :: p) :: ps := by
  rw [splitDash, if_neg hc, h]

theorem splitDash_exists_cons (l : List Char) :
    ∃ p ps, splitDash l = p :: ps := by
  cases h : splitDash l with
  | nil => exact absurd h (splitDash_ne_nil l)
  | cons p ps => exact ⟨p, ps, rfl⟩

theorem splitDash_append (a b : List Char) :
    splitDash (a ++ '-' :: b) = splitDash a ++ splitDash b := by
  induction a with
  | nil => simp [splitDash]
  | cons c cs ih =>
      by_cases hc : c = '-'
      · subst hc
        rw [List.cons_append, splitDash, if_pos rfl, ih, splitDash, if_pos rfl]
        simp
      · obtain ⟨p, ps, hps⟩ := splitDash_exists_cons cs
        rw [List.cons_append,
          splitDash_cons_of_cons c (cs ++ '-' :: b) p (ps ++ splitDash b) hc
            (by rw [ih, hps]; simp),
          splitDash_cons_of_cons c cs p ps hc hps]
        simp

theorem splitDash_no_dash (l : List Char) (h : ∀ c ∈ l, c ≠ '-') :
    splitDash l = [l] := by
  induction l with
  | nil => rfl
  | cons c cs ih =>
      rw [splitDash_cons_of_cons c cs cs [] (h c (by simp))
        (ih (fun x hx => h x (by simp [hx])))]

theorem joinDash_splitDash (l : List Char) : joinDash (splitDash l) = l := by
  induction l with
  | nil => rfl
  | cons c cs ih =>
      obtain ⟨p, ps, hps⟩ := splitDash_exists_cons cs
      by_cases hc : c = '-'
      · subst hc
        rw [splitDash, if_pos rfl, hps]
        rw [hps] at ih
        simpa [joinDash] using ih
      · rw [splitDash_cons_of_cons c cs p ps hc hps]
        rw [hps] at ih
        cases ps with
        | nil => simpa [joinDash] using congrArg (c :: ·) ih
        | cons q qs => simpa [joinDash] using congrArg (c :: ·) ih

/-- Inclusive character-range test used by the sanitizers. -/
def charBetween (lo hi c : Char) : Bool := lo ≤ c && c ≤ hi

/-- The character class `[a-z0-9]` of the session-id regex. -/
def isBase36Char (c : Char) : Bool := c.isDigit || charBetween 'a' 'z' c

/-- The components of a gkSessionId as returned by `parseGkSessionId`. -/
structure ParsedSessionId where
  appName : String
  pid : Nat
  timestamp : String
  random : String

/-- Embedding of `generateGkSessionId` (gk-session-manager.cjs lines
195-199): the string `{appName}-{pid}-{timestamp}-{random}`, where
`timestamp` stands for `Date.now().toString(36)` and `random` for
`Math.random().toString(36).substring(2, 6)`, both passed in as
explicit arguments since they are impure. -/
def generateGkSessionId (appName : String) (pid : Nat)
    (timestamp random : String) : String :=
  appName ++ "-" ++ natDecStr pid ++ "-" ++ timestamp ++ "-" ++ random

/-- Embedding of `parseGkSessionId` (gk-session-manager.cjs lines
206-220). The regex `(.+)-(\d+)-([a-z0-9]+)-([a-z0-9]{4})` anchored at
both ends is modelled on the hyphen-split segments: the three last
groups cannot contain a hyphen, so any match takes the last segment as
`random` (exactly 4 chars), the previous as `timestamp`, the one
before as the digits of `pid`, and everything before that, rejoined
with hyphens, as the non-empty `appName`; this split is unique, so
greedy backtracking plays no role. A falsy argument returns null. -/
def parseGkSessionId (gkSessionId : String) : Option ParsedSessionId :=
  if gkSessionId = "" then none
  else
    match (splitDash gkSessionId.toList).reverse with
    | r :: t :: d :: rest =>
        let app := joinDash rest.reverse
        if (r.length == 4) && r.all isBase36Char &&
            !t.isEmpty && t.all isBase36Char &&
            !d.isEmpty && d.all Char.isDigit &&
            !app.isEmpty then
          some ⟨String.mk app, parseIntDec d, String.mk t, String.mk r⟩
        else none
    | _ => none

/-- Embedding of `getPidFromSessionId` (lines 227-230). -/
def getPidFromSessionId (gkSessionId : String) : Option Nat :=
  match parseGkSessionId gkSessionId with
  | some parsed => some parsed.pid
  | none => none

theorem strToList_ne_nil (s : String) (h : s ≠ "") : s.toList ≠ [] := by
  intro hl
  apply h
  cases s with
  | mk data =>
      simp only [String.toList] at hl
      subst hl
      rfl

theorem isBase36Char_ne_dash (c : Char) (h : isBase36Char c = true) :
    c ≠ '-' := by
  intro hc
  subst hc
  exact absurd h (by decide)

theorem isDigit_ne_dash (c : Char) (h : c.isDigit = true) : c ≠ '-' := by
  intro hc
  subst hc
  exact absurd h (by decide)

/-- C9: parsing is a left inverse of generation. For every non-empty
appName over lowercase letters, digits and hyphens, every pid, every
timestamp the generator can produce (a non-empty base-36 string) and
every 4-character base-36 random suffix, `parseGkSessionId` recovers
exactly the generated components. -/
theorem claim_C9_parse_inverts_generate (appName : String) (pid : Nat)
    (ts rand : String)
    (h1 : appName ≠ "")
    (_h2 : ∀ c ∈ appName.toList,
        c.isDigit = true ∨ ('a' ≤ c ∧ c ≤ 'z') ∨ c = '-')
    (h3 : ts ≠ "") (h4 : ∀ c ∈ ts.toList, isBase36Char c = true)
    (h5 : rand.toList.length = 4)
    (h6 : ∀ c ∈ rand.toList, isBase36Char c = true) :
    parseGkSessionId (generateGkSessionId appName pid ts rand) =
      some ⟨appName, pid, ts, rand⟩ := by
  have hgen : (generateGkSessionId appName pid ts rand).toList =
      appName.toList ++ '-' ::
        (natDecChars pid ++ '-' :: (ts.toList ++ '-' :: rand.toList)) := by
    simp [generateGkSessionId, natDecStr, String.toList, String.data_append]
  have hsplit : splitDash (generateGkSessionId appName pid ts rand).toList =
      splitDash appName.toList ++ [natDecChars pid, ts.toList, rand.toList] := by
    rw [hgen, splitDash_append, splitDash_append, splitDash_append,
      splitDash_no_dash (natDecChars pid)
        (fun c hc => isDigit_ne_dash c (natDecChars_all_digit pid c hc)),
      splitDash_no_dash ts.toList
        (fun c hc => isBase36Char_ne_dash c (h4 c hc)),
      splitDash_no_dash rand.toList
        (fun c hc => isBase36Char_ne_dash c (h6 c hc))]
    simp
  have hrev : (splitDash (generateGkSessionId appName pid ts rand).toList).reverse =
      rand.toList :: ts.toList :: natDecChars pid ::
        (splitDash appName.toList).reverse := by
    rw [hsplit]
    simp
  have hne : generateGkSessionId appName pid ts rand ≠ "" := by
    intro he
    have : (generateGkSessionId appName pid ts rand).toList = [] := by
      rw [he]; rfl
    rw [hgen] at this
    simp at this
  have happ : joinDash ((splitDash appName.toList).reverse).reverse =
      appName.toList := by
    rw [List.reverse_reverse, joinDash_splitDash]
  rw [parseGkSessionId, if_neg hne]
  rw [hrev]
  simp only [happ]
  have hcond : ((rand.toList.length == 4) && rand.toList.all isBase36Char &&
      !ts.toList.isEmpty && ts.toList.all isBase36Char &&
      !(natDecChars pid).isEmpty && (natDecChars pid).all Char.isDigit &&
      !appName.toList.isEmpty) = true := by
    simp only [Bool.and_eq_true, List.all_eq_true, Bool.not_eq_true',
      List.isEmpty_eq_false]
    exact ⟨⟨⟨⟨⟨⟨by simpa using h5, h6⟩, strToList_ne_nil ts h3⟩, h4⟩,
      natDecChars_ne_nil pid⟩, natDecChars_all_digit pid⟩,
      strToList_ne_nil appName h1⟩
  rw [if_pos hcond]
  simp [parseIntDec_natDecChars]

/-- Witness for C9 at a concrete appName containing a hyphen, pid,
timestamp and 4-character suffix. -/
theorem claim_C9_witness :
    parseGkSessionId (generateGkSessionId "gemini-main" 1234 "m3x5k2" "ab12") =
      some ⟨"gemini-main", 1234, "m3x5k2", "ab12"⟩ := by
  have hchars : ∀ c ∈ "gemini-main".toList,
      c.isDigit = true ∨ ('a' ≤ c ∧ c ≤ 'z') ∨ c = '-' := by decide
  exact claim_C9_parse_inverts_generate "gemini-main" 1234 "m3x5k2" "ab12"
    (by decide) hchars (by decide) (by decide) (by decide) (by decide)

/-- Reduce to a 32-bit word (arithmetic of `crypto`-style SHA-256 is
modelled over Nat modulo 2 to the 32). -/
def w32 (n : Nat) : Nat := n % 4294967296

/-- Right rotation of a 32-bit word. -/
def rotr32 (x n : Nat) : Nat := w32 ((x >>> n) ||| (x <<< (32 - n)))

/-- SHA-256 lowercase sigma 0. -/
def sSig0 (x : Nat) : Nat := rotr32 x 7 ^^^ rotr32 x 18 ^^^ (x >>> 3)

/-- SHA-256 lowercase sigma 1. -/
def sSig1 (x : Nat) : Nat := rotr32 x 17 ^^^ rotr32 x 19 ^^^ (x >>> 10)

/-- SHA-256 uppercase sigma 0. -/
def bSig0 (x : Nat) : Nat := rotr32 x 2 ^^^ rotr32 x 13 ^^^ rotr32 x 22

/-- SHA-256 uppercase sigma 1. -/
def bSig1 (x : Nat) : Nat := rotr32 x 6 ^^^ rotr32 x 11 ^^^ rotr32 x 25

/-- SHA-256 choose function. -/
def chf (x y z : Nat) : Nat := (x &&& y) ^^^ ((x ^^^ 4294967295) &&& z)

/-- SHA-256 majority function. -/
def majf (x y z : Nat) : Nat := (y &&& z) ^^^ (x &&& y) ^^^ (x &&& z)

/-- The SHA-256 round constants. -/
def sha256K : List Nat :=
  [1116352408, 1899447441, 3049323471, 3921009573, 961987163, 1508970993,
   2453635748, 2870763221, 3624381080, 310598401, 607225278, 1426881987,
   1925078388, 2162078206, 2614888103, 3248222580, 3835390401, 4022224774,
   264347078, 604807628, 770255983, 1249150122, 1555081692, 1996064986,
   2554220882, 2821834349, 2952996808, 3210313671, 3336571891, 3584528711,
   113926993, 338241895, 666307205, 773529912, 1294757372, 1396182291,
   1695183700, 1986661051, 2177026350, 2456956037, 2730485921, 2820302411,
   3259730800, 3345764771, 3516065817, 3600352804, 4094571909, 275423344,
   430227734, 506948616, 659060556, 883997877, 958139571, 1322822218,
   1537002063, 1747873779, 1955562222, 2024104815, 2227730452, 2361852424,
   2428436474, 2756734187, 3204031479, 3329325298]

/-- The SHA-256 initial hash state. -/
def sha256H0 : List Nat :=
  [1779033703, 3144134277, 1013904242, 2773480762, 1359893119, 2600822924,
   528734635, 1541459225]

/-- Extend the 16-word block to the 64-word message schedule; `fuel`
counts the remaining words to append (48 from the top). -/
def sha256Extend (ws : List Nat) : Nat → List Nat
  | 0 => ws
  | fuel + 1 =>
      let n := ws.length
      let nw := w32 (sSig1 (ws.getD (n - 2) 0) + ws.getD (n - 7) 0 +
        sSig0 (ws.getD (n - 15) 0) + ws.getD (n - 16) 0)
      sha256Extend (ws ++ [nw]) fuel

/-- One SHA-256 compression round on the 8-word working state. -/
def sha256Round (st : List Nat) (kw : Nat × Nat) : List Nat :=
  match st with
  | [a, b, c, d, e, f, g, h] =>
      let t1 := w32 (h + bSig1 e + chf e f g + kw.1 + kw.2)
      let t2 := w32 (bSig0 a + majf a b c)
      [w32 (t1 + t2), a, b, c, w32 (d + t1), e, f, g]
  | other => other

/-- Compress one 16-word block into the hash state. -/
def sha256Compress (h : List Nat) (block : List Nat) : List Nat :=
  let ws := sha256Extend block 48
  let st := (sha256K.zip ws).foldl sha256Round h
  List.zipWith (fun x y => w32 (x + y)) h st

/-- SHA-256 padding of a byte list: append 0x80, zeros up to 56 mod
64, then the bit length as 8 big-endian bytes. -/
def sha256Pad (msg : List Nat) : List Nat :=
  let len := msg.length
  let bitLen := 8 * len
  let zeros := (119 - len % 64) % 64
  msg ++ 0x80 :: List.replicate zeros 0 ++
    [bitLen >>> 56 &&& 255, bitLen >>> 48 &&& 255, bitLen >>> 40 &&& 255,
     bitLen >>> 32 &&& 255, bitLen >>> 24 &&& 255, bitLen >>> 16 &&& 255,
     bitLen >>> 8 &&& 255, bitLen &&& 255]

/-- Pack 4 consecutive bytes into big-endian 32-bit words. -/
def bytesToWords : List Nat → List Nat
  | b0 :: b1 :: b2 :: b3 :: rest =>
      (b0 <<< 24 ||| b1 <<< 16 ||| b2 <<< 8 ||| b3) :: bytesToWords rest
  | _ => []

/-- Split the padded bytes into 16-word blocks; `fuel` bounds the
number of blocks. -/
def sha256Blocks (fuel : Nat) (bytes : List Nat) : List (List Nat) :=
  match fuel, bytes with
  | _, [] => []
  | 0, _ => []
  | f + 1, bs => bytesToWords (bs.take 64) :: sha256Blocks f (bs.drop 64)

/-- The SHA-256 digest of a byte list, as 8 32-bit words. -/
def sha256Words (msg : List Nat) : List Nat :=
  let padded := sha256Pad msg
  (sha256Blocks padded.length padded).foldl sha256Compress sha256H0

/-- A hex digit character, lowercase. -/
def hexDigit (n : Nat) : Char :=
  if n < 10 then Char.ofNat (48 + n) else Char.ofNat (87 + n)

/-- The 8 hex characters of a 32-bit word, most significant first. -/
def wordHexChars (w : Nat) : List Char :=
  [hexDigit (w >>> 28 &&& 15), hexDigit (w >>> 24 &&& 15),
   hexDigit (w >>> 20 &&& 15), hexDigit (w >>> 16 &&& 15),
   hexDigit (w >>> 12 &&& 15), hexDigit (w >>> 8 &&& 15),
   hexDigit (w >>> 4 &&& 15), hexDigit (w &&& 15)]

/-- The lowercase hex encoding of the SHA-256 digest of a byte list
(the model of `crypto.createHash("sha256").update(s).digest("hex")`,
for ASCII strings whose UTF-8 bytes are their code points). -/
def sha256HexChars (msg : List Nat) : List Char :=
  ((sha256Words msg).map wordHexChars).flatten

/-- Drop the colon of a leading Windows drive letter: the replacement
of the anchored regex `[A-Za-z]:` in `sanitizeProjectPath`. -/
def dropDriveColon : List Char → List Char
  | a :: ':' :: rest =>
      if charBetween 'A' 'Z' a || charBetween 'a' 'z' a then a :: rest
      else a :: ':' :: rest
  | l => l

/-- Replace every run of slashes and backslashes by one hyphen; `prev`
records whether the previous character belonged to such a run. -/
def slashRunsToHyphen (prev : Bool) : List Char → List Char
  | [] => []
  | c :: cs =>
      if c = '/' || c = '\\' then
        if prev then slashRunsToHyphen true cs
        else '-' :: slashRunsToHyphen true cs
      else c :: slashRunsToHyphen false cs

/-- Keep letters, digits and hyphens; every other character becomes a
hyphen. -/
def keepAlnumHyphen (c : Char) : Char :=
  if charBetween 'a' 'z' c || charBetween 'A' 'Z' c || c.isDigit || c = '-' then c
  else '-'

/-- Collapse runs of hyphens to a single hyphen. -/
def collapseHyphens (prev : Bool) : List Char → List Char
  | [] => []
  | c :: cs =>
      if c = '-' then
        if prev then collapseHyphens true cs
        else '-' :: collapseHyphens true cs
      else c :: collapseHyphens false cs

/-- Remove one leading and one trailing hyphen (the global regex with
the two anchored alternatives). -/
def trimHyphens (l : List Char) : List Char :=
  let l2 := match l with
    | '-' :: rest => rest
    | other => other
  match l2.reverse with
  | '-' :: r => r.reverse
  | _ => l2

/-- Embedding of `sanitizeProjectPath` (gk-session-manager.cjs lines
271-279): drive colon dropped, path separator runs and special
characters to hyphens, hyphen runs collapsed, outer hyphens trimmed. -/
def sanitizeProjectPath (projectPath : String) : String :=
  if projectPath = "" then ""
  else
    String.mk (trimHyphens (collapseHyphens false
      ((slashRunsToHyphen false (dropDriveColon projectPath.toList)).map
        keepAlnumHyphen)))

/-- ASCII lowercasing, the model of `toLowerCase` for ASCII paths. -/
def asciiLower (c : Char) : Char :=
  if charBetween 'A' 'Z' c then Char.ofNat (c.toNat + 32) else c

/-- Embedding of `generateGkProjectHash` (gk-session-manager.cjs lines
286-292): backslashes become slashes, the path is lowercased, and the
result is the first 16 hex characters of its SHA-256 digest. -/
def generateGkProjectHash (projectPath : String) : String :=
  let normalized :=
    (projectPath.toList.map (fun c => if c = '\\' then '/' else c)).map
      asciiLower
  String.mk ((sha256HexChars (normalized.map Char.toNat)).take 16)

/-- The projects directory `~/.gemkit/projects` (`os.homedir()` is
modelled as the literal tilde). -/
def PROJECTS_DIR : String := "~/.gemkit/projects"

/-- Embedding of `getProjectDataDir` (lines 337-339). -/
def getProjectDataDir (projectDir : String) : String :=
  PROJECTS_DIR ++ "/" ++ projectDir

/-- Embedding of `getSessionPath` (lines 347-349). -/
def getSessionPath (projectDir gkSessionId : String) : String :=
  getProjectDataDir projectDir ++ "/" ++
    ("gk-session-" ++ gkSessionId ++ ".json")

/-- Embedding of `getProjectPath` (lines 357-359). -/
def getProjectPath (projectDir gkProjectHash : String) : String :=
  getProjectDataDir projectDir ++ "/" ++
    ("gk-project-" ++ gkProjectHash ++ ".json")

/-- The identifiers derived from a project path. -/
structure PIds where
  projectDir : String
  gkProjectHash : String
  projectPath : String

/-- Embedding of `generateProjectIdentifiers` (lines 299-306); the
current working directory is passed explicitly. -/
def generateProjectIdentifiers (cwd : String) : PIds :=
  ⟨sanitizeProjectPath cwd, generateGkProjectHash cwd, cwd⟩

/-- A lowercase hexadecimal digit character. -/
def isHexChar (c : Char) : Bool := c.isDigit || charBetween 'a' 'f' c

theorem hexDigit_isHex (n : Nat) (h : n ≤ 15) :
    isHexChar (hexDigit n) = true := by
  interval_cases n <;> decide

theorem mem_wordHexChars_isHex (c : Char) (w : Nat)
    (hc : c ∈ wordHexChars w) : isHexChar c = true := by
  simp only [wordHexChars, List.mem_cons, List.not_mem_nil, or_false] at hc
  obtain rfl | rfl | rfl | rfl | rfl | rfl | rfl | rfl := hc <;>
    exact hexDigit_isHex _ Nat.and_le_right

theorem wordHexChars_length (w : Nat) : (wordHexChars w).length = 8 := by
  simp [wordHexChars]

theorem hexJoin_length (ws : List Nat) :
    ((ws.map wordHexChars).flatten).length = 8 * ws.length := by
  induction ws with
  | nil => simp
  | cons w ws ih => simp [ih, wordHexChars]; ring

theorem sha256Round_length (st : List Nat) (kw : Nat × Nat) :
    (sha256Round st kw).length = st.length := by
  unfold sha256Round
  split <;> simp_all

theorem foldl_sha256Round_length (l : List (Nat × Nat)) :
    ∀ st : List Nat, (l.foldl sha256Round st).length = st.length := by
  induction l with
  | nil => intro st; rfl
  | cons kw l ih =>
      intro st
      simp only [List.foldl_cons]
      rw [ih (sha256Round st kw), sha256Round_length]

theorem sha256Compress_length (h : List Nat) (block : List Nat) :
    (sha256Compress h block).length = h.length := by
  simp [sha256Compress, List.length_zipWith, foldl_sha256Round_length]

theorem foldl_sha256Compress_length (blocks : List (List Nat)) :
    ∀ h : List Nat, (blocks.foldl sha256Compress h).length = h.length := by
  induction blocks with
  | nil => intro h; rfl
  | cons b blocks ih =>
      intro h
      simp only [List.foldl_cons]
      rw [ih (sha256Compress h b), sha256Compress_length]

theorem sha256Words_length (msg : List Nat) : (sha256Words msg).length = 8 := by
  unfold sha256Words
  rw [foldl_sha256Compress_length]
  rfl

theorem sha256HexChars_length (msg : List Nat) :
    (sha256HexChars msg).length = 64 := by
  unfold sha256HexChars
  rw [hexJoin_length, sha256Words_length]

theorem mem_sha256HexChars_isHex (c : Char) (msg : List Nat)
    (hc : c ∈ sha256HexChars msg) : isHexChar c = true := by
  unfold sha256HexChars at hc
  rw [List.mem_flatten] at hc
  obtain ⟨l, hl, hcl⟩ := hc
  rw [List.mem_map] at hl
  obtain ⟨w, _, rfl⟩ := hl
  exact mem_wordHexChars_isHex c w hcl

/-- C4, amended: the name of the per-project data directory is the
sanitized project path (separators and special characters become
hyphens), not a SHA-256 digest; the SHA-256 derivation instead
produces `gkProjectHash`, the first 16 lowercase hex characters of the
digest of the lowercased slash-normalized path, which names the
per-project file `gk-project-{gkProjectHash}.json` inside that
directory. -/
theorem claim_C4_amended (projectPath : String) :
    (generateProjectIdentifiers projectPath).projectDir =
      sanitizeProjectPath projectPath ∧
    getProjectDataDir (generateProjectIdentifiers projectPath).projectDir =
      "~/.gemkit/projects" ++ "/" ++ sanitizeProjectPath projectPath ∧
    getProjectPath (generateProjectIdentifiers projectPath).projectDir
        (generateProjectIdentifiers projectPath).gkProjectHash =
      getProjectDataDir (sanitizeProjectPath projectPath) ++ "/" ++
        ("gk-project-" ++ generateGkProjectHash projectPath ++ ".json") ∧
    (generateGkProjectHash projectPath).toList.length = 16 ∧
    (∀ c ∈ (generateGkProjectHash projectPath).toList, isHexChar c = true) := by
  refine ⟨rfl, rfl, rfl, ?_, ?_⟩
  · show ((sha256HexChars _).take 16).length = 16
    rw [List.length_take, sha256HexChars_length]
    rfl
  · intro c hc
    have hc2 : c ∈ sha256HexChars
        ((((generateProjectIdentifiers projectPath).projectPath.toList.map
          (fun c => if c = '\\' then '/' else c)).map asciiLower).map
            Char.toNat) :=
      List.mem_of_mem_take hc
    exact mem_sha256HexChars_isHex c _ hc2

/-- C4, counterexample: for the project path `/a/b` the data directory
name is the sanitized path `a-b`, which is not the SHA-256 derivation
(the code truncates digests to the 16 hex characters shown). -/
theorem claim_C4_counterexample :
    sanitizeProjectPath "/a/b" = "a-b" ∧
    generateGkProjectHash "/a/b" = "662b7b62a798bb2d" ∧
    (generateProjectIdentifiers "/a/b").projectDir ≠
      generateGkProjectHash "/a/b" ∧
    getProjectDataDir (generateProjectIdentifiers "/a/b").projectDir =
      "~/.gemkit/projects/a-b" := by
  refine ⟨by decide, by decide, by decide, by decide⟩

/-- The contents of one per-project data directory
`~/.gemkit/projects/{projectDir}`: the parsed JSON of each
`gk-session-{gkSessionId}.json` file, keyed by gkSessionId. All
session operations below act inside the one directory named by the
`projectDir` their source counterparts receive; the list order models
the readdir order that `findSessionByGeminiId` scans. -/
abbrev SessionStore := List (String × JVal)

/-- Strict equality of a possibly-missing field with a string,
`v === s` for a string `s`. -/
def jIsStr (v : Option JVal) (s : String) : Bool :=
  match v with
  | some (.str t) => t == s
  | _ => false

/-- The element list of an array value (agents fields of reachable
session files are always arrays). -/
def jArrList : JVal → List JVal
  | .arr l => l
  | _ => []

/-- Embedding of `getSession` (gk-session-manager.cjs lines 543-556):
null for a falsy id or a missing file; the store holds parsed JSON,
so the parse-failure branch cannot arise. -/
def getSession (store : SessionStore) (gkSessionId : String) : Option JVal :=
  if gkSessionId = "" then none else jLookup gkSessionId store

/-- Embedding of `reorderSessionFields` (lines 563-569): every field
except `agents` in order, then `agents` (or `[]`) last. -/
def reorderSessionFields (session : JVal) : JVal :=
  let fs := spreadFields session
  JVal.obj ((fs.filter fun kv => !(kv.1 == "agents")) ++
    [("agents",
      match jLookup "agents" fs with
      | some a => if truthy a then a else JVal.arr []
      | none => JVal.arr [])])

/-- Embedding of `saveSession` (lines 578-596): reorders the fields
and replaces the session file under its id (the temp-file/rename
write trace is modelled separately for claim C3; `none` models the
false return on a falsy id). -/
def saveSession (store : SessionStore) (gkSessionId : String) (data : JVal) :
    Option SessionStore :=
  if gkSessionId = "" then none
  else some (jSet gkSessionId (reorderSessionFields data) store)

/-- Embedding of `updateSession` (lines 605-614): merge `updates` over
the stored session and save; `none` models the null return. -/
def updateSession (store : SessionStore) (gkSessionId : String)
    (updates : List (String × JVal)) : Option SessionStore :=
  match getSession store gkSessionId with
  | none => none
  | some session =>
      saveSession store gkSessionId
        (JVal.obj (jSetMany (spreadFields session) updates))

/-- The id under which `addAgent` files the agent:
`agentData.gkSessionId || gkSessionId` (ids are strings at every call
site). -/
def agentIdOf (gkSessionId : String) (agentData : JVal) : String :=
  match jGet "gkSessionId" agentData with
  | some (.str s) => if s = "" then gkSessionId else s
  | _ => gkSessionId

/-- The agent object constructed by `addAgent` for a new entry (lines
655-675); `now` models `new Date().toISOString()`. -/
def newAgentObj (agentGkSessionId : String) (agentData : JVal) (now : String) :
    JVal :=
  JVal.obj
    [("gkSessionId", JVal.str agentGkSessionId),
     ("pid", jGetOr "pid" agentData
        (match getPidFromSessionId agentGkSessionId with
         | some p => JVal.num p
         | none => JVal.null)),
     ("geminiSessionId", jGetOr "geminiSessionId" agentData JVal.null),
     ("geminiProjectHash", jGetOr "geminiProjectHash" agentData JVal.null),
     ("parentGkSessionId", jGetOr "parentGkSessionId" agentData JVal.null),
     ("agentType",
      if truthyO (jGet "parentGkSessionId" agentData) then JVal.str "Sub Agent"
      else JVal.str "Main Agent"),
     ("agentRole", jGetOr "agentRole" agentData (JVal.str "main")),
     ("prompt", jGetOr "prompt" agentData JVal.null),
     ("model", jGetOr "model" agentData JVal.null),
     ("tokenUsage", jGetOr "tokenUsage" agentData JVal.null),
     ("retryCount", jGetOr "retryCount" agentData (JVal.num 0)),
     ("resumeCount", jGetOr "resumeCount" agentData (JVal.num 0)),
     ("generation", jGetOr "generation" agentData (JVal.num 0)),
     ("injected", jGetOr "injected" agentData JVal.null),
     ("startTime", JVal.str now),
     ("endTime", JVal.null),
     ("status", JVal.str "active"),
     ("exitCode", JVal.null),
     ("error", JVal.null)]

/-- Embedding of `addAgent` (lines 638-680): update model and prompt
of an existing entry with the same agent id, or push a fresh agent
object, then save the session. -/
def addAgent (store : SessionStore) (gkSessionId : String) (agentData : JVal)
    (now : String) : Option SessionStore :=
  match getSession store gkSessionId with
  | none => none
  | some session =>
      let agentGkSessionId := agentIdOf gkSessionId agentData
      let agents :=
        match jGet "agents" session with
        | some v => if truthy v then jArrList v else []
        | none => []
      let newAgents :=
        match agents.findIdx? (fun a => jIsStr (jGet "gkSessionId" a) agentGkSessionId) with
        | some i =>
            let existing := agents.getD i (JVal.obj [])
            agents.set i (JVal.obj
              (jSet "prompt"
                (jGetOr "prompt" existing (jGetOr "prompt" agentData JVal.null))
                (jSet "model"
                  (jGetOr "model" existing (jGetOr "model" agentData JVal.null))
                  (spreadFields existing))))
        | none => agents ++ [newAgentObj agentGkSessionId agentData now]
      saveSession store gkSessionId
        (JVal.obj (jSet "agents" (JVal.arr newAgents) (spreadFields session)))

/-- Embedding of `updateAgent` (lines 690-703): merge `updates` over
the matching agent entry and save the session. -/
def updateAgent (store : SessionStore) (gkSessionId agentGkSessionId : String)
    (updates : List (String × JVal)) : Option SessionStore :=
  match getSession store gkSessionId with
  | none => none
  | some session =>
      match jGet "agents" session with
      | none => none
      | some ag =>
          if !truthy ag then none
          else
            let agents := jArrList ag
            match agents.findIdx? (fun a => jIsStr (jGet "gkSessionId" a) agentGkSessionId) with
            | none => none
            | some i =>
                let updated := JVal.obj
                  (jSetMany (spreadFields (agents.getD i (JVal.obj []))) updates)
                saveSession store gkSessionId
                  (JVal.obj (jSet "agents" (JVal.arr (agents.set i updated))
                    (spreadFields session)))

/-- The update list built by `endAgent` (lines 735-748): end time,
status defaulting to completed, exit code with nullish default 0,
error, and token usage only when truthy. -/
def endAgentUpdates (result : JVal) (now : String) : List (String × JVal) :=
  let updates :=
    [("endTime", JVal.str now),
     ("status", jGetOr "status" result (JVal.str "completed")),
     ("exitCode",
      match jGet "exitCode" result with
      | some v => if jsIsNull v then JVal.num 0 else v
      | none => JVal.num 0),
     ("error", jGetOr "error" result JVal.null)]
  if truthyO (jGet "tokenUsage" result) then
    updates ++ [("tokenUsage", (jGet "tokenUsage" result).getD JVal.null)]
  else updates

/-- Embedding of `endAgent` (lines 735-749). -/
def endAgent (store : SessionStore) (gkSessionId agentGkSessionId : String)
    (result : JVal) (now : String) : Option SessionStore :=
  updateAgent store gkSessionId agentGkSessionId (endAgentUpdates result now)

/-- Embedding of `updateAgentGeminiSession` (lines 714-725): set the
geminiSessionId of the matching agent entry and save. -/
def updateAgentGeminiSession (store : SessionStore)
    (gkSessionId agentGkSessionId geminiSessionId : String) :
    Option SessionStore :=
  match getSession store gkSessionId with
  | none => none
  | some session =>
      match jGet "agents" session with
      | none => none
      | some ag =>
          if !truthy ag then none
          else
            let agents := jArrList ag
            match agents.findIdx? (fun a => jIsStr (jGet "gkSessionId" a) agentGkSessionId) with
            | none => none
            | some i =>
                let agent := JVal.obj
                  (jSet "geminiSessionId" (JVal.str geminiSessionId)
                    (spreadFields (agents.getD i (JVal.obj []))))
                saveSession store gkSessionId
                  (JVal.obj (jSet "agents" (JVal.arr (agents.set i agent))
                    (spreadFields session)))

/-- Embedding of `updateAgentPrompt` (lines 759-767): set the prompt
of the matching agent only when it has none yet. -/
def updateAgentPrompt (store : SessionStore)
    (gkSessionId agentGkSessionId prompt : String) : Option SessionStore :=
  match getSession store gkSessionId with
  | none => none
  | some session =>
      match jGet "agents" session with
      | none => none
      | some ag =>
          if !truthy ag then none
          else
            let agents := jArrList ag
            match agents.find? (fun a => jIsStr (jGet "gkSessionId" a) agentGkSessionId) with
            | none => none
            | some agent =>
                if truthyO (jGet "prompt" agent) then none
                else updateAgent store gkSessionId agentGkSessionId
                  [("prompt", JVal.str prompt)]

theorem jLookup_append (k : String) (l1 l2 : List (String × JVal)) :
    jLookup k (l1 ++ l2) =
      match jLookup k l1 with
      | some v => some v
      | none => jLookup k l2 := by
  induction l1 with
  | nil => simp [jLookup]
  | cons hd tl ih =>
      obtain ⟨k', v'⟩ := hd
      by_cases h : k' = k
      · simp [jLookup, h]
      · simp [jLookup, h, ih]

theorem jLookup_filter_agents (k : String) (fs : List (String × JVal))
    (hk : k ≠ "agents") :
    jLookup k (fs.filter fun kv => !(kv.1 == "agents")) = jLookup k fs := by
  induction fs with
  | nil => rfl
  | cons hd tl ih =>
      obtain ⟨k', v'⟩ := hd
      by_cases h : k' = k
      · subst h
        have : ¬ (k' == "agents") = true := by
          simp
          exact hk
        simp [jLookup, List.filter_cons, this]
      · have hne : ¬ ("agents" = k) := fun hh => hk hh.symm
        by_cases h2 : k' = "agents"
        · simp [jLookup, List.filter_cons, h2, h, ih, hne]
        · simp [jLookup, List.filter_cons, h2, h, ih, hne]

theorem jGet_reorderSessionFields_ne (session : JVal) (k : String)
    (hk : k ≠ "agents") :
    jGet k (reorderSessionFields session) = jMember k session := by
  show jLookup k _ = jLookup k (spreadFields session)
  rw [jLookup_append, jLookup_filter_agents k _ hk]
  have hne : ¬ ("agents" = k) := fun hh => hk hh.symm
  cases h : jLookup k (spreadFields session) with
  | some v => simp
  | none => simp [jLookup, hne]

/-- The frame property claimed for the agent-level operations: other
session files are untouched, and in the saved target session every
top-level field other than `agents` keeps the value it had in the
stored session (field access through the member view `jMember`, which
for object-valued sessions is property access). -/
def agentsOnlyChange (store store' : SessionStore) (id : String) : Prop :=
  (∀ id', id' ≠ id → jLookup id' store' = jLookup id' store) ∧
  (∀ s' k, jLookup id store' = some s' → k ≠ "agents" →
    jGet k s' = (jLookup id store).bind (jMember k))

theorem agentsOnlyChange_of_save (store : SessionStore) (id : String)
    (s X : JVal) (hs : jLookup id store = some s) :
    agentsOnlyChange store
      (jSet id (reorderSessionFields
        (JVal.obj (jSet "agents" X (spreadFields s)))) store) id := by
  constructor
  · intro id' hne
    exact jLookup_jSet_ne id' id _ store (Ne.symm hne)
  · intro s' k hs' hk
    rw [jLookup_jSet_self] at hs'
    injection hs' with hs'
    subst hs'
    rw [hs]
    show jGet k (reorderSessionFields
      (JVal.obj (jSet "agents" X (spreadFields s)))) = jMember k s
    rw [jGet_reorderSessionFields_ne _ _ hk]
    show jLookup k (jSet "agents" X (spreadFields s)) = jLookup k (spreadFields s)
    exact jLookup_jSet_ne k "agents" X _ (fun hh => hk hh.symm)

theorem getSession_some (store : SessionStore) (id : String) (s : JVal)
    (h : getSession store id = some s) : id ≠ "" ∧ jLookup id store = some s := by
  unfold getSession at h
  split at h
  · exact absurd h (by simp)
  · exact ⟨by assumption, h⟩

theorem saveSession_some (store : SessionStore) (id : String) (d : JVal)
    (store' : SessionStore) (h : saveSession store id d = some store') :
    store' = jSet id (reorderSessionFields d) store := by
  unfold saveSession at h
  split at h
  · exact absurd h (by simp)
  · injection h with h
    exact h.symm

theorem addAgent_shape (store : SessionStore) (id : String) (agentData : JVal)
    (now : String) (store' : SessionStore)
    (h : addAgent store id agentData now = some store') :
    ∃ s X, jLookup id store = some s ∧
      store' = jSet id (reorderSessionFields
        (JVal.obj (jSet "agents" X (spreadFields s)))) store := by
  unfold addAgent at h
  cases hg : getSession store id with
  | none => rw [hg] at h; exact absurd h (by simp)
  | some s =>
      rw [hg] at h
      exact ⟨s, _, (getSession_some store id s hg).2,
        saveSession_some _ _ _ _ h⟩

theorem updateAgent_shape (store : SessionStore) (id agentId : String)
    (updates : List (String × JVal)) (store' : SessionStore)
    (h : updateAgent store id agentId updates = some store') :
    ∃ s X, jLookup id store = some s ∧
      store' = jSet id (reorderSessionFields
        (JVal.obj (jSet "agents" X (spreadFields s)))) store := by
  unfold updateAgent at h
  split at h
  · exact absurd h (by simp)
  · rename_i session hget
    split at h
    · exact absurd h (by simp)
    · split at h
      · exact absurd h (by simp)
      · dsimp only [] at h
        split at h
        · exact absurd h (by simp)
        · exact ⟨session, _, (getSession_some store id session hget).2,
            saveSession_some _ _ _ _ h⟩

/-- C10: the agent-level operations `addAgent`, `updateAgent` and
`endAgent` modify only the `agents` array of the stored session
record; on every successful call every other top-level session field
keeps its stored value, and every other session file in the project
directory is unchanged. -/
theorem claim_C10_agent_ops_frame :
    (∀ store id agentData now store',
        addAgent store id agentData now = some store' →
        agentsOnlyChange store store' id) ∧
    (∀ store id agentId updates store',
        updateAgent store id agentId updates = some store' →
        agentsOnlyChange store store' id) ∧
    (∀ store id agentId result now store',
        endAgent store id agentId result now = some store' →
        agentsOnlyChange store store' id) := by
  have hu : ∀ store id agentId updates store',
      updateAgent store id agentId updates = some store' →
      agentsOnlyChange store store' id := by
    intro store id agentId updates store' h
    obtain ⟨s, X, hs, rfl⟩ := updateAgent_shape store id agentId updates store' h
    exact agentsOnlyChange_of_save store id s X hs
  refine ⟨?_, hu, ?_⟩
  · intro store id agentData now store' h
    obtain ⟨s, X, hs, rfl⟩ := addAgent_shape store id agentData now store' h
    exact agentsOnlyChange_of_save store id s X hs
  · intro store id agentId result now store' h
    exact hu store id agentId (endAgentUpdates result now) store' h

/-- Witness for C10: a concrete addAgent call on a one-session store
satisfies the frame property. -/
theorem claim_C10_witness :
    agentsOnlyChange
      [("s1", JVal.obj [("gkSessionId", JVal.str "s1"),
        ("agents", JVal.arr [])])]
      ((addAgent
        [("s1", JVal.obj [("gkSessionId", JVal.str "s1"),
          ("agents", JVal.arr [])])]
        "s1" (JVal.obj [("parentGkSessionId", JVal.str "s1")]) "t").getD [])
      "s1" :=
  claim_C10_agent_ops_frame.1
    [("s1", JVal.obj [("gkSessionId", JVal.str "s1"), ("agents", JVal.arr [])])]
    "s1" (JVal.obj [("parentGkSessionId", JVal.str "s1")]) "t" _ rfl

/-- The values stored in `.gemini/.env`, as read back by `readEnv`
(lines 369-434); a missing file yields all empty strings. -/
structure EnvData where
  gkSessionIdV : String
  gkProjectHashV : String
  projectDirV : String
  geminiSessionIdV : String
  geminiProjectHashV : String
  geminiParentIdV : String
  activePlanV : String
  suggestedPlanV : String
  planDateFormatV : String

/-- The env contents before any write. -/
def emptyEnv : EnvData := ⟨"", "", "", "", "", "", "", "", ""⟩

/-- `readEnv` on the stored contents: identical values except for the
legacy rule mapping `ACTIVE_GEMINI_SESSION_ID` onto an empty
`ACTIVE_GK_SESSION_ID` (lines 424-428). -/
def readEnvFrom (e : EnvData) : EnvData :=
  { e with gkSessionIdV :=
      if e.gkSessionIdV = "" then e.geminiSessionIdV else e.gkSessionIdV }

/-- A value interpolated as `${v || ""}` into the env file: the string
itself when truthy, else empty (the values written are strings, null
or undefined at every call site). -/
def envStr (v : Option JVal) : String :=
  match v with
  | some (.str s) => s
  | _ => ""

/-- Embedding of `updateEnv` (lines 441-468): the file afterwards
holds exactly the interpolated values (`GEMINI_PARENT_ID` is not
among the written keys, so it reads back empty). The temp-free write
trace is modelled separately for claim C3. -/
def updateEnv (gkSessionId gkProjectHash projectDir geminiSessionId
    geminiProjectHash activePlan suggestedPlan planDateFormat : Option JVal) :
    EnvData :=
  { gkSessionIdV := envStr gkSessionId
    gkProjectHashV := envStr gkProjectHash
    projectDirV := envStr projectDir
    geminiSessionIdV := envStr geminiSessionId
    geminiProjectHashV := envStr geminiProjectHash
    geminiParentIdV := ""
    activePlanV := envStr activePlan
    suggestedPlanV := envStr suggestedPlan
    planDateFormatV := envStr planDateFormat }

/-- Embedding of `findSessionByGeminiId` (lines 1211-1235): scan the
session files in directory order for one whose `geminiSessionId`
strictly equals the given id; falsy ids find nothing. The result is
the matching (file id, parsed session) pair, standing for the file
path the source returns. -/
def findSessionByGeminiId (sessions : SessionStore) (geminiSessionId : JVal) :
    Option (String × JVal) :=
  match geminiSessionId with
  | .str g =>
      if g = "" then none
      else sessions.find? (fun kv => jIsStr (jGet "geminiSessionId" kv.2) g)
  | _ => none

/-- Embedding of `getProject` (lines 837-850) within one project data
directory, keyed by gkProjectHash. -/
def getProject (projects : List (String × JVal)) (gkProjectHash : String) :
    Option JVal :=
  if gkProjectHash = "" then none else jLookup gkProjectHash projects

/-- Embedding of `saveProject` (lines 859-873); the direct
(non-atomic) write trace is modelled separately for claim C3. -/
def saveProject (projects : List (String × JVal)) (gkProjectHash : String)
    (data : JVal) : Option (List (String × JVal)) :=
  if gkProjectHash = "" then none
  else some (jSet gkProjectHash data projects)

/-- Embedding of `ensureProject` (lines 882-903); `projectPath` is
already resolved against `process.cwd()` by the caller, `now` models
the ISO timestamp. -/
def ensureProject (projects : List (String × JVal))
    (projectDir gkProjectHash projectPath : String) (now : String) :
    JVal × List (String × JVal) :=
  match getProject projects gkProjectHash with
  | some p => (p, projects)
  | none =>
      let project := JVal.obj
        [("gkProjectHash", JVal.str gkProjectHash),
         ("projectDir", JVal.str projectDir),
         ("projectPath", JVal.str projectPath),
         ("geminiProjectHash", JVal.null),
         ("initialized", JVal.bool true),
         ("initTimestamp", JVal.str now),
         ("lastActiveTimestamp", JVal.str now),
         ("activeGkSessionId", JVal.null),
         ("sessions", JVal.arr [])]
      (project, (saveProject projects gkProjectHash project).getD projects)

/-- The project-session entry written by `addSessionToProject` when no
entry with the summary gkSessionId exists (lines 932-941). -/
def newProjectSessionEntry (sessionSummary : JVal) (now : String) : JVal :=
  JVal.obj
    [("gkSessionId", (jGet "gkSessionId" sessionSummary).getD JVal.null),
     ("pid", jGetOr "pid" sessionSummary JVal.null),
     ("sessionType", jGetOr "sessionType" sessionSummary (JVal.str "gemini")),
     ("appName", jGetOr "appName" sessionSummary (JVal.str "gemini-main")),
     ("prompt", jGetOr "prompt" sessionSummary JVal.null),
     ("activePlan", jGetOr "activePlan" sessionSummary JVal.null),
     ("startTime", jGetOr "startTime" sessionSummary (JVal.str now)),
     ("endTime", jGetOr "endTime" sessionSummary JVal.null)]

/-- The merged entry when one already exists (lines 919-930). -/
def mergedProjectSessionEntry (sessionSummary existing : JVal) : JVal :=
  JVal.obj
    [("gkSessionId", (jGet "gkSessionId" sessionSummary).getD JVal.null),
     ("pid", jGetOr "pid" sessionSummary (jGetOr "pid" existing JVal.null)),
     ("sessionType", jGetOr "sessionType" sessionSummary
        (jGetOr "sessionType" existing JVal.null)),
     ("appName", jGetOr "appName" sessionSummary
        (jGetOr "appName" existing JVal.null)),
     ("prompt", jGetOr "prompt" sessionSummary
        (jGetOr "prompt" existing JVal.null)),
     ("activePlan", jGetOr "activePlan" sessionSummary
        (jGetOr "activePlan" existing JVal.null)),
     ("startTime", jGetOr "startTime" sessionSummary
        (jGetOr "startTime" existing JVal.null)),
     ("endTime", jGetOr "endTime" sessionSummary
        (jGetOr "endTime" existing JVal.null))]

/-- Embedding of `addSessionToProject` (lines 912-952); `dateParse`
models `new Date(startTime || 0).getTime()` for the descending sort
of the session entries. -/
def addSessionToProject (projects : List (String × JVal))
    (projectDir gkProjectHash : String) (sessionSummary : JVal)
    (cwd now : String) (dateParse : Option JVal → Int) :
    List (String × JVal) :=
  let pr := ensureProject projects projectDir gkProjectHash cwd now
  let project := pr.1
  let projects := pr.2
  let sid :=
    match jGet "gkSessionId" sessionSummary with
    | some (.str s) => s
    | _ => ""
  let fields := spreadFields project
  let fields := jSet "activeGkSessionId"
    ((jGet "gkSessionId" sessionSummary).getD JVal.null) fields
  let fields := jSet "lastActiveTimestamp" (JVal.str now) fields
  let sessionsArr := jArrList ((jLookup "sessions" fields).getD (JVal.arr []))
  let sessionsArr :=
    match sessionsArr.findIdx? (fun e => jIsStr (jGet "gkSessionId" e) sid) with
    | some i =>
        sessionsArr.set i
          (mergedProjectSessionEntry sessionSummary
            (sessionsArr.getD i (JVal.obj [])))
    | none => sessionsArr ++ [newProjectSessionEntry sessionSummary now]
  let sorted := sessionsArr.mergeSort
    (fun a b => dateParse (jGet "startTime" b) ≤ dateParse (jGet "startTime" a))
  let fields := jSet "sessions" (JVal.arr sorted) fields
  (saveProject projects gkProjectHash (JVal.obj fields)).getD projects

/-- The full embedded state of the session manager for one project:
session files, project files and the `.gemini/.env` contents. -/
structure ManagerState where
  sessions : SessionStore
  projects : List (String × JVal)
  env : EnvData

/-- The value returned by `initializeGeminiSession`. -/
structure InitResult where
  session : JVal
  gkSessionId : Option JVal
  pid : Option JVal
  projectDir : String
  gkProjectHash : JVal
  isResume : Bool

/-- The session object created by `initializeGeminiSession` (lines
1048-1076): the literal fields in source order, then the spread of
`options.initialState`, then the empty agents array. -/
def newGeminiSessionObj (gkSessionId gkProjectHash projectDir : String)
    (geminiSessionId geminiParentId : JVal) (now appName : String) (pid : Nat)
    (activePlan suggestedPlan : JVal) (planDateFormat : String)
    (initialState : List (String × JVal)) : JVal :=
  JVal.obj (jSetMany []
    ([("gkSessionId", JVal.str gkSessionId),
      ("gkProjectHash", JVal.str gkProjectHash),
      ("projectDir", JVal.str projectDir),
      ("geminiSessionId", geminiSessionId),
      ("geminiParentId", geminiParentId),
      ("geminiProjectHash", JVal.null),
      ("initialized", JVal.bool true),
      ("initTimestamp", JVal.str now),
      ("sessionType", JVal.str "gemini"),
      ("appName", JVal.str appName),
      ("pid", JVal.num pid),
      ("activePlan", if truthy activePlan then activePlan else JVal.null),
      ("suggestedPlan", if truthy suggestedPlan then suggestedPlan else JVal.null),
      ("planDateFormat", JVal.str planDateFormat)]
      ++ initialState ++ [("agents", JVal.arr [])]))

/-- The resume branch of `initializeGeminiSession` (lines 988-1014 and
its verbatim double-check copy at 1019-1045): update the env from the
found session and return it with `isResume` true, leaving every
session file as it is. -/
def resumeFromExisting (st : ManagerState) (geminiSessionId : JVal)
    (projectDir gkProjectHash : String) (existingSession : JVal) :
    InitResult × ManagerState :=
  let existingGkSessionId := jGet "gkSessionId" existingSession
  let currentEnv := readEnvFrom st.env
  let env' := updateEnv existingGkSessionId
    (some (jGetOr "gkProjectHash" existingSession (JVal.str gkProjectHash)))
    (some (JVal.str projectDir))
    (some geminiSessionId)
    (some (jGetOr "geminiProjectHash" existingSession
      (JVal.str currentEnv.geminiProjectHashV)))
    (jGet "activePlan" existingSession)
    (jGet "suggestedPlan" existingSession)
    (jGet "planDateFormat" existingSession)
  (⟨existingSession, existingGkSessionId, jGet "pid" existingSession,
    projectDir,
    jGetOr "gkProjectHash" existingSession (JVal.str gkProjectHash), true⟩,
   { st with env := env' })

/-- Embedding of `initializeGeminiSession` (lines 978-1115). Impure
inputs are explicit: `cwd` for `options.cwd || process.cwd()`, `pid`
for `process.pid`, `now` for the ISO timestamp, `ts` and `rand` for
the generated id parts, `dateParse` for `Date` parsing inside the
project bookkeeping. -/
def initializeGeminiSession (st : ManagerState)
    (geminiSessionId geminiParentId : JVal) (cwd : String)
    (activePlan suggestedPlan : JVal) (planDateFormat : String)
    (initialState : List (String × JVal)) (pid : Nat) (now ts rand : String)
    (dateParse : Option JVal → Int) : InitResult × ManagerState :=
  let ids := generateProjectIdentifiers cwd
  let appName := if truthy geminiParentId then "gemini-sub" else "gemini-main"
  let gkSessionId := generateGkSessionId appName pid ts rand
  match findSessionByGeminiId st.sessions geminiSessionId with
  | some fe =>
      resumeFromExisting st geminiSessionId ids.projectDir ids.gkProjectHash fe.2
  | none =>
      match findSessionByGeminiId st.sessions geminiSessionId with
      | some fe =>
          resumeFromExisting st geminiSessionId ids.projectDir ids.gkProjectHash
            fe.2
      | none =>
          let session := newGeminiSessionObj gkSessionId ids.gkProjectHash
            ids.projectDir geminiSessionId geminiParentId now appName pid
            activePlan suggestedPlan planDateFormat initialState
          let sessions' :=
            (saveSession st.sessions gkSessionId session).getD st.sessions
          let pr := ensureProject st.projects ids.projectDir ids.gkProjectHash
            ids.projectPath now
          let summary := JVal.obj
            [("gkSessionId", JVal.str gkSessionId), ("pid", JVal.num pid),
             ("sessionType", JVal.str "gemini"),
             ("appName", JVal.str appName),
             ("startTime", (jGet "initTimestamp" session).getD JVal.null),
             ("activePlan", (jGet "activePlan" session).getD JVal.null)]
          let projects' := addSessionToProject pr.2 ids.projectDir
            ids.gkProjectHash summary cwd now dateParse
          let existingEnv := readEnvFrom st.env
          let env' := updateEnv (some (JVal.str gkSessionId))
            (some (JVal.str ids.gkProjectHash))
            (some (JVal.str ids.projectDir))
            (some geminiSessionId)
            (some (JVal.str existingEnv.geminiProjectHashV))
            (jGet "activePlan" session)
            (jGet "suggestedPlan" session)
            (some (JVal.str planDateFormat))
          (⟨session, some (JVal.str gkSessionId), some (JVal.num pid),
            ids.projectDir, JVal.str ids.gkProjectHash, false⟩,
           ⟨sessions', projects', env'⟩)

/-- At most one session file mentions any given (truthy)
geminiSessionId. -/
def UniqueByGemini (sessions : SessionStore) : Prop :=
  ∀ g : String, g ≠ "" →
    sessions.countP (fun kv => jIsStr (jGet "geminiSessionId" kv.2) g) ≤ 1

theorem find_eq_of_mem_of_countP_le_one {α : Type} (p : α → Bool)
    (l : List α) (x : α) (hx : x ∈ l) (hpx : p x = true)
    (hc : l.countP p ≤ 1) : l.find? p = some x := by
  induction l with
  | nil => cases hx
  | cons y ys ih =>
      rw [List.countP_cons] at hc
      cases hy : p y with
      | true =>
          rw [hy] at hc
          simp only [if_true, reduceIte] at hc
          have hys : ys.countP p = 0 := by omega
          rcases List.mem_cons.mp hx with rfl | hmem
          · simp [List.find?, hy]
          · exact absurd hpx (by
              have := List.countP_eq_zero.mp hys x hmem
              simp [this])
      | false =>
          rcases List.mem_cons.mp hx with rfl | hmem
          · exact absurd hpx (by simp [hy])
          · rw [List.find?_cons_of_neg _ (by simp [hy])]
            exact ih hmem (by omega)

theorem countP_jSet_le (p : String × JVal → Bool) (k : String) (v : JVal)
    (l : List (String × JVal)) :
    (jSet k v l).countP p ≤ l.countP p + 1 := by
  induction l with
  | nil =>
      simp only [jSet, List.countP_cons, List.countP_nil]
      by_cases hpv : p (k, v) <;> simp [hpv]
  | cons hd tl ih =>
      obtain ⟨k', v'⟩ := hd
      by_cases h : k' = k
      · subst h
        simp only [jSet, if_pos rfl, List.countP_cons]
        by_cases h1 : p (k', v) <;> by_cases h2 : p (k', v') <;>
          simp [h1, h2] <;> omega
      · simp only [jSet, if_neg h, List.countP_cons]
        by_cases h2 : p (k', v') <;> simp [h2] <;> omega

theorem countP_jSet_le_of_not (p : String × JVal → Bool) (k : String)
    (v : JVal) (l : List (String × JVal)) (h : p (k, v) = false) :
    (jSet k v l).countP p ≤ l.countP p := by
  induction l with
  | nil => simp [jSet, List.countP_cons, h]
  | cons hd tl ih =>
      obtain ⟨k', v'⟩ := hd
      by_cases hk : k' = k
      · subst hk
        simp only [jSet, if_pos rfl, List.countP_cons, h]
        by_cases h2 : p (k', v') <;> simp [h2, h] <;> omega
      · simp only [jSet, if_neg hk, List.countP_cons]
        by_cases h2 : p (k', v') <;> simp [h2] <;> omega

theorem jSetMany_append (base : List (String × JVal))
    (e1 e2 : List (String × JVal)) :
    jSetMany base (e1 ++ e2) = jSetMany (jSetMany base e1) e2 := by
  simp [jSetMany, List.foldl_append]

theorem jLookup_jSetMany_not_mem (k : String) (entries : List (String × JVal)) :
    ∀ base, k ∉ entries.map Prod.fst →
      jLookup k (jSetMany base entries) = jLookup k base := by
  induction entries with
  | nil => intro base _; rfl
  | cons hd tl ih =>
      intro base hk
      obtain ⟨k', v'⟩ := hd
      simp only [List.map_cons, List.mem_cons] at hk
      push_neg at hk
      show jLookup k (jSetMany (jSet k' v' base) tl) = jLookup k base
      rw [ih (jSet k' v' base) hk.2,
        jLookup_jSet_ne k k' v' base (fun hh => hk.1 hh.symm)]

theorem generateGkSessionId_toList (appName : String) (pid : Nat)
    (ts rand : String) :
    (generateGkSessionId appName pid ts rand).toList =
      appName.toList ++ '-' ::
        (natDecChars pid ++ '-' :: (ts.toList ++ '-' :: rand.toList)) := by
  simp [generateGkSessionId, natDecStr, String.toList, String.data_append]

theorem generateGkSessionId_ne_empty (appName : String) (pid : Nat)
    (ts rand : String) : generateGkSessionId appName pid ts rand ≠ "" := by
  intro h
  have h2 : (generateGkSessionId appName pid ts rand).toList = [] := by
    rw [h]; rfl
  rw [generateGkSessionId_toList] at h2
  simp at h2

theorem jLookup_build (k : String) (B entries : List (String × JVal))
    (x : JVal) (hk : k ≠ "agents") (hinit : k ∉ entries.map Prod.fst) :
    jLookup k (jSetMany [] (B ++ entries ++ [("agents", x)])) =
      jLookup k (jSetMany [] B) := by
  rw [jSetMany_append, jSetMany_append]
  show jLookup k (jSet "agents" x (jSetMany (jSetMany [] B) entries)) = _
  rw [jLookup_jSet_ne k "agents" x _ (fun hh => hk hh.symm),
    jLookup_jSetMany_not_mem k entries _ hinit]

theorem newGeminiSessionObj_gemini_lookup (gkSessionId gkProjectHash
    projectDir : String) (geminiSessionId geminiParentId : JVal)
    (now appName : String) (pid : Nat) (activePlan suggestedPlan : JVal)
    (planDateFormat : String) (initialState : List (String × JVal))
    (hinit : "geminiSessionId" ∉ initialState.map Prod.fst) :
    jMember "geminiSessionId"
      (newGeminiSessionObj gkSessionId gkProjectHash projectDir
        geminiSessionId geminiParentId now appName pid activePlan
        suggestedPlan planDateFormat initialState) = some geminiSessionId := by
  unfold newGeminiSessionObj jMember
  simp only [spreadFields]
  rw [jLookup_build "geminiSessionId" _ initialState _ (by decide) hinit]
  simp [jSetMany, jSet, jLookup]

/-- What the resume branch promises: the call reports a resume,
returns the stored session with its stored gkSessionId, and leaves
the session files untouched. -/
def resumesWith (r : InitResult × ManagerState) (st : ManagerState)
    (s : JVal) : Prop :=
  r.1.isResume = true ∧ r.1.session = s ∧
    r.1.gkSessionId = jGet "gkSessionId" s ∧ r.2.sessions = st.sessions

/-- C2: when a session file for the given geminiSessionId already
exists in the project data directory, `initializeGeminiSession`
resumes it: it returns that session with `isResume` true and the
existing gkSessionId and creates no session file; and every call
preserves the at-most-one-file-per-geminiSessionId invariant (the
`initialState` options of the hook never carry a `geminiSessionId`
key, which the second part assumes). -/
theorem claim_C2_resume_and_uniqueness :
    (∀ (st : ManagerState) (g fid : String) (s geminiParentId : JVal)
       (cwd : String) (activePlan suggestedPlan : JVal)
       (planDateFormat : String) (initialState : List (String × JVal))
       (pid : Nat) (now ts rand : String) (dateParse : Option JVal → Int),
       g ≠ "" →
       (fid, s) ∈ st.sessions →
       jGet "geminiSessionId" s = some (JVal.str g) →
       UniqueByGemini st.sessions →
       resumesWith
         (initializeGeminiSession st (JVal.str g) geminiParentId cwd
           activePlan suggestedPlan planDateFormat initialState pid now ts
           rand dateParse) st s) ∧
    (∀ (st : ManagerState) (geminiSessionId geminiParentId : JVal)
       (cwd : String) (activePlan suggestedPlan : JVal)
       (planDateFormat : String) (initialState : List (String × JVal))
       (pid : Nat) (now ts rand : String) (dateParse : Option JVal → Int),
       "geminiSessionId" ∉ initialState.map Prod.fst →
       UniqueByGemini st.sessions →
       UniqueByGemini
         (initializeGeminiSession st geminiSessionId geminiParentId cwd
           activePlan suggestedPlan planDateFormat initialState pid now ts
           rand dateParse).2.sessions) := by
  constructor
  · intro st g fid s geminiParentId cwd activePlan suggestedPlan
      planDateFormat initialState pid now ts rand dateParse hg hmem hgem huniq
    have hp : (fun kv : String × JVal =>
        jIsStr (jGet "geminiSessionId" kv.2) g) (fid, s) = true := by
      simp [jIsStr, hgem]
    have hfind : findSessionByGeminiId st.sessions (JVal.str g) =
        some (fid, s) := by
      show (if g = "" then none
        else st.sessions.find?
          (fun kv => jIsStr (jGet "geminiSessionId" kv.2) g)) = some (fid, s)
      rw [if_neg hg]
      exact find_eq_of_mem_of_countP_le_one _ _ _ hmem hp (huniq g hg)
    simp only [initializeGeminiSession, hfind]
    exact ⟨rfl, rfl, rfl, rfl⟩
  · intro st geminiSessionId geminiParentId cwd activePlan suggestedPlan
      planDateFormat initialState pid now ts rand dateParse hinit huniq
    cases hfind : findSessionByGeminiId st.sessions geminiSessionId with
    | some fe =>
        simp only [initializeGeminiSession, hfind]
        exact huniq
    | none =>
        simp only [initializeGeminiSession, hfind]
        have hne := generateGkSessionId_ne_empty
          (if truthy geminiParentId then "gemini-sub" else "gemini-main")
          pid ts rand
        show UniqueByGemini ((saveSession st.sessions _ _).getD st.sessions)
        rw [saveSession, if_neg hne]
        show UniqueByGemini (jSet _ _ st.sessions)
        intro g2 hg2
        have hv : jGet "geminiSessionId"
            (reorderSessionFields (newGeminiSessionObj
              (generateGkSessionId
                (if truthy geminiParentId then "gemini-sub" else "gemini-main")
                pid ts rand)
              (generateProjectIdentifiers cwd).gkProjectHash
              (generateProjectIdentifiers cwd).projectDir geminiSessionId
              geminiParentId now
              (if truthy geminiParentId then "gemini-sub" else "gemini-main")
              pid activePlan suggestedPlan planDateFormat initialState)) =
            some geminiSessionId := by
          rw [jGet_reorderSessionFields_ne _ _ (by decide)]
          exact newGeminiSessionObj_gemini_lookup _ _ _ _ _ _ _ _ _ _ _ _ hinit
        cases hgs : geminiSessionId with
        | str t =>
            subst hgs
            by_cases ht : t = g2
            · subst ht
              have hzero : st.sessions.countP (fun kv =>
                  jIsStr (jGet "geminiSessionId" kv.2) t) = 0 := by
                have hfind2 : (if t = "" then (none : Option (String × JVal))
                    else st.sessions.find?
                      (fun kv => jIsStr (jGet "geminiSessionId" kv.2) t)) =
                    none := hfind
                rw [if_neg hg2] at hfind2
                exact List.countP_eq_zero.mpr (List.find?_eq_none.mp hfind2)
              calc (jSet _ _ st.sessions).countP _ ≤ _ + 1 := countP_jSet_le _ _ _ _
                _ ≤ 1 := by rw [hzero]
            · refine le_trans (countP_jSet_le_of_not _ _ _ _ ?_) (huniq g2 hg2)
              simp only [hv, jIsStr]
              simp [ht]
        | null =>
            subst hgs
            refine le_trans (countP_jSet_le_of_not _ _ _ _ ?_) (huniq g2 hg2)
            simp [hv, jIsStr]
        | bool b =>
            subst hgs
            refine le_trans (countP_jSet_le_of_not _ _ _ _ ?_) (huniq g2 hg2)
            simp [hv, jIsStr]
        | num n =>
            subst hgs
            refine le_trans (countP_jSet_le_of_not _ _ _ _ ?_) (huniq g2 hg2)
            simp [hv, jIsStr]
        | arr l =>
            subst hgs
            refine le_trans (countP_jSet_le_of_not _ _ _ _ ?_) (huniq g2 hg2)
            simp [hv, jIsStr]
        | obj fs =>
            subst hgs
            refine le_trans (countP_jSet_le_of_not _ _ _ _ ?_) (huniq g2 hg2)
            simp [hv, jIsStr]

/-- Witness for C2: a one-file store with geminiSessionId g1 resumes
that session and leaves the store unchanged. -/
theorem claim_C2_witness :
    resumesWith
      (initializeGeminiSession
        ⟨[("s1", JVal.obj [("gkSessionId", JVal.str "s1"),
          ("geminiSessionId", JVal.str "g1")])], [], emptyEnv⟩
        (JVal.str "g1") JVal.null "/proj" JVal.null JVal.null "" [] 7 "now"
        "ts1" "abcd" (fun _ => 0))
      ⟨[("s1", JVal.obj [("gkSessionId", JVal.str "s1"),
        ("geminiSessionId", JVal.str "g1")])], [], emptyEnv⟩
      (JVal.obj [("gkSessionId", JVal.str "s1"),
        ("geminiSessionId", JVal.str "g1")]) :=
  claim_C2_resume_and_uniqueness.1
    ⟨[("s1", JVal.obj [("gkSessionId", JVal.str "s1"),
      ("geminiSessionId", JVal.str "g1")])], [], emptyEnv⟩
    "g1" "s1"
    (JVal.obj [("gkSessionId", JVal.str "s1"),
      ("geminiSessionId", JVal.str "g1")])
    JVal.null "/proj" JVal.null JVal.null "" [] 7 "now" "ts1" "abcd"
    (fun _ => 0)
    (by decide) (by simp) rfl
    (fun g hg => le_trans (List.countP_le_length _) (by simp))

/-- The agents stored in a session record. -/
def agentsOf (sess : JVal) : List JVal :=
  match jGet "agents" sess with
  | some v => jArrList v
  | none => []

/-- The per-agent part of the sub-agent invariant for the session file
named `sid`: the entry is a plain object, and when its
`parentGkSessionId` is non-null it equals the id of the containing
file and the entry is typed `Sub Agent`. -/
def AgentOk (sid : String) (agent : JVal) : Prop :=
  jsIsPlainObject agent = true ∧
  ∀ p, jGet "parentGkSessionId" agent = some p → p ≠ JVal.null →
    p = JVal.str sid ∧ jGet "agentType" agent = some (JVal.str "Sub Agent")

/-- C6 invariant over a project data directory: every agent entry of
every session file satisfies `AgentOk` for that file. -/
def SubAgentInvariant (store : SessionStore) : Prop :=
  ∀ sid sess, jLookup sid store = some sess →
    ∀ agent ∈ agentsOf sess, AgentOk sid agent

/-- The induction invariant, slightly stronger than the first-binding
view `agentsOf`: every value bound to `agents` anywhere in the field
list of the session holds only `AgentOk` entries.  Stored sessions
are `reorderSessionFields` outputs, which carry exactly one `agents`
binding, so this is what saving preserves. -/
def SessionShapeOk (sid : String) (sess : JVal) : Prop :=
  ∀ v, ("agents", v) ∈ spreadFields sess →
    ∀ agent ∈ jArrList v, AgentOk sid agent

/-- The induction invariant over a whole project data directory. -/
def StoreOk (store : SessionStore) : Prop :=
  ∀ sid sess, jLookup sid store = some sess → SessionShapeOk sid sess

theorem jLookup_mem (k : String) (v : JVal) (l : List (String × JVal))
    (h : jLookup k l = some v) : (k, v) ∈ l := by
  induction l with
  | nil => exact Option.noConfusion h
  | cons hd tl ih =>
      obtain ⟨k', v'⟩ := hd
      by_cases hk : k' = k
      · subst hk
        rw [show jLookup k' ((k', v') :: tl) = some v' by simp [jLookup]] at h
        injection h with h
        subst h
        exact List.mem_cons_self _ _
      · rw [show jLookup k ((k', v') :: tl) = jLookup k tl by
          simp [jLookup, hk]] at h
        exact List.mem_cons_of_mem _ (ih h)

theorem mem_jSet (x : String × JVal) (k : String) (v : JVal)
    (l : List (String × JVal)) (h : x ∈ jSet k v l) :
    x = (k, v) ∨ x ∈ l := by
  induction l with
  | nil => simpa [jSet] using h
  | cons hd tl ih =>
      obtain ⟨k', v'⟩ := hd
      by_cases hk : k' = k
      · subst hk
        rw [show jSet k' v ((k', v') :: tl) = (k', v) :: tl by
          simp [jSet]] at h
        rcases List.mem_cons.mp h with rfl | hmem
        · exact Or.inl rfl
        · exact Or.inr (List.mem_cons_of_mem _ hmem)
      · rw [show jSet k v ((k', v') :: tl) = (k', v') :: jSet k v tl by
          simp [jSet, hk]] at h
        rcases List.mem_cons.mp h with rfl | hmem
        · exact Or.inr (List.mem_cons_self _ _)
        · rcases ih hmem with h1 | h1
          · exact Or.inl h1
          · exact Or.inr (List.mem_cons_of_mem _ h1)

theorem mem_jSetMany (x : String × JVal) (entries : List (String × JVal)) :
    ∀ base, x ∈ jSetMany base entries → x ∈ base ∨ x ∈ entries := by
  induction entries with
  | nil => intro base h; exact Or.inl h
  | cons e rest ih =>
      intro base h
      obtain ⟨k, v⟩ := e
      have h' : x ∈ jSetMany (jSet k v base) rest := h
      rcases ih _ h' with h1 | h1
      · rcases mem_jSet x k v base h1 with h2 | h2
        · exact Or.inr (h2 ▸ List.mem_cons_self _ _)
        · exact Or.inl h2
      · exact Or.inr (List.mem_cons_of_mem _ h1)

theorem sessionShape_agents (sid : String) (sess : JVal)
    (h : SessionShapeOk sid sess) (agent : JVal)
    (ha : agent ∈ agentsOf sess) : AgentOk sid agent := by
  unfold agentsOf at ha
  cases hg : jGet "agents" sess with
  | none => rw [hg] at ha; cases ha
  | some v =>
      rw [hg] at ha
      cases sess with
      | obj fs =>
          have hmem : ("agents", v) ∈ fs := jLookup_mem _ _ _ hg
          exact h v hmem agent ha
      | null => exact Option.noConfusion hg
      | bool b => exact Option.noConfusion hg
      | num n => exact Option.noConfusion hg
      | str s => exact Option.noConfusion hg
      | arr l => exact Option.noConfusion hg

theorem storeOk_subAgentInvariant (store : SessionStore) (h : StoreOk store) :
    SubAgentInvariant store :=
  fun sid sess hl agent ha => sessionShape_agents sid sess (h sid sess hl) agent ha

theorem jLookup_agents_filter (fs : List (String × JVal)) :
    jLookup "agents" (fs.filter fun kv => !(kv.1 == "agents")) = none := by
  induction fs with
  | nil => rfl
  | cons hd tl ih =>
      obtain ⟨k', v'⟩ := hd
      by_cases h : k' = "agents"
      · simp [List.filter_cons, h, ih]
      · simp [List.filter_cons, h, jLookup, ih]

theorem jGet_reorderSessionFields_agents (s : JVal) :
    jGet "agents" (reorderSessionFields s) =
      some (match jLookup "agents" (spreadFields s) with
        | some a => if truthy a then a else JVal.arr []
        | none => JVal.arr []) := by
  show jLookup "agents" _ = _
  rw [jLookup_append, jLookup_agents_filter]
  simp [jLookup]

theorem agentsOf_reorder_set (fs : List (String × JVal)) (L : List JVal) :
    agentsOf (reorderSessionFields (JVal.obj (jSet "agents" (JVal.arr L) fs))) =
      L := by
  unfold agentsOf
  rw [jGet_reorderSessionFields_agents]
  simp only [spreadFields, jLookup_jSet_self]
  simp [truthy, jArrList]

theorem mem_filter_agents_false (v : JVal) (fs : List (String × JVal))
    (h : ("agents", v) ∈ (fs.filter fun kv => !(kv.1 == "agents"))) : False := by
  have hp := (List.mem_filter.mp h).2
  simp at hp

theorem sessionShapeOk_reorder (sid : String) (d : JVal)
    (hd : ∀ agent ∈ agentsOf (reorderSessionFields d), AgentOk sid agent) :
    SessionShapeOk sid (reorderSessionFields d) := by
  intro v hv agent hagent
  have hv' : ("agents", v) ∈
      ((spreadFields d).filter fun kv => !(kv.1 == "agents")) ++
        [("agents",
          match jLookup "agents" (spreadFields d) with
          | some a => if truthy a then a else JVal.arr []
          | none => JVal.arr [])] := hv
  rcases List.mem_append.mp hv' with hmem | hmem
  · exact absurd hmem (fun hh => mem_filter_agents_false v _ hh)
  · have heq := List.mem_singleton.mp hmem
    have hveq : v = (match jLookup "agents" (spreadFields d) with
        | some a => if truthy a then a else JVal.arr []
        | none => JVal.arr []) := congrArg Prod.snd heq
    have hag : agentsOf (reorderSessionFields d) = jArrList v := by
      unfold agentsOf
      rw [jGet_reorderSessionFields_agents, ← hveq]
    exact hd agent (hag ▸ hagent)

theorem storeOk_of_save (store : SessionStore) (sid : String) (d : JVal)
    (store' : SessionStore) (hInv : StoreOk store)
    (hd : ∀ agent ∈ agentsOf (reorderSessionFields d), AgentOk sid agent)
    (h : store' = jSet sid (reorderSessionFields d) store) :
    StoreOk store' := by
  subst h
  intro sid' sess' h'
  by_cases hs : sid' = sid
  · subst hs
    rw [jLookup_jSet_self] at h'
    injection h' with h'
    subst h'
    exact sessionShapeOk_reorder sid' d hd
  · rw [jLookup_jSet_ne sid' sid _ store (fun hh => hs hh.symm)] at h'
    exact hInv sid' sess' h'

theorem truthy_jGetOr_null (k : String) (v : JVal) :
    truthy (jGetOr k v JVal.null) = truthyO (jGet k v) := by
  unfold jGetOr truthyO
  cases h : jGet k v with
  | none => rfl
  | some x =>
      show truthy (if truthy x = true then x else JVal.null) = truthy x
      cases hx : truthy x with
      | false => simp only [Bool.false_eq_true, if_false]; rfl
      | true => simp only [if_true, reduceIte]; exact hx

theorem newAgentObj_parent (aid : String) (ad : JVal) (now : String) :
    jGet "parentGkSessionId" (newAgentObj aid ad now) =
      some (jGetOr "parentGkSessionId" ad JVal.null) := by
  simp [newAgentObj, jGet, jLookup]

theorem newAgentObj_type (aid : String) (ad : JVal) (now : String) :
    jGet "agentType" (newAgentObj aid ad now) =
      some (if truthyO (jGet "parentGkSessionId" ad) then
        JVal.str "Sub Agent" else JVal.str "Main Agent") := by
  simp [newAgentObj, jGet, jLookup]

theorem AgentOk_newAgentObj (sid aid : String) (ad : JVal) (now : String)
    (hA : jGet "parentGkSessionId" ad = some JVal.null ∨
      jGet "parentGkSessionId" ad = some (JVal.str sid)) :
    AgentOk sid (newAgentObj aid ad now) := by
  refine ⟨rfl, ?_⟩
  intro p hp hnn
  rw [newAgentObj_parent] at hp
  injection hp with hp
  rcases hA with hA | hA
  · exfalso
    apply hnn
    rw [← hp]
    unfold jGetOr
    rw [hA]
    rfl
  · have htO : truthyO (jGet "parentGkSessionId" ad) = truthy (JVal.str sid) := by
      rw [hA]; rfl
    cases hs : truthy (JVal.str sid) with
    | false =>
        exfalso
        apply hnn
        rw [← hp]
        unfold jGetOr
        rw [hA]
        show (if truthy (JVal.str sid) = true then JVal.str sid else JVal.null) =
          JVal.null
        rw [hs]
        simp only [Bool.false_eq_true, if_false]
    | true =>
        constructor
        · rw [← hp]
          unfold jGetOr
          rw [hA]
          show (if truthy (JVal.str sid) = true then JVal.str sid else JVal.null) =
            JVal.str sid
          rw [hs]
          simp only [reduceIte]
        · rw [newAgentObj_type, htO, hs]
          simp only [reduceIte]

theorem AgentOk_of_safe_update (sid : String) (a : JVal)
    (updates : List (String × JVal))
    (hsafe : ∀ k ∈ updates.map Prod.fst,
      k ≠ "parentGkSessionId" ∧ k ≠ "agentType")
    (hok : AgentOk sid a) (hobj : jsIsPlainObject a = true) :
    AgentOk sid (JVal.obj (jSetMany (spreadFields a) updates)) := by
  cases a with
  | obj afs =>
      have h1 : jLookup "parentGkSessionId" (jSetMany afs updates) =
          jLookup "parentGkSessionId" afs := by
        apply jLookup_jSetMany_not_mem
        intro hmem
        exact ((hsafe _ hmem).1 rfl).elim
      have h2 : jLookup "agentType" (jSetMany afs updates) =
          jLookup "agentType" afs := by
        apply jLookup_jSetMany_not_mem
        intro hmem
        exact ((hsafe _ hmem).2 rfl).elim
      refine ⟨rfl, ?_⟩
      intro p hp hnn
      have hp0 : jLookup "parentGkSessionId" (jSetMany afs updates) = some p := hp
      rw [h1] at hp0
      have hres := hok.2 p hp0 hnn
      refine ⟨hres.1, ?_⟩
      show jLookup "agentType" (jSetMany afs updates) = _
      rw [h2]
      exact hres.2
  | null => cases hobj
  | bool b => cases hobj
  | num n => cases hobj
  | str s => cases hobj
  | arr l => cases hobj

theorem agents_guard_mem (session : JVal) (a : JVal)
    (ha : a ∈ (match jGet "agents" session with
      | some v => if truthy v then jArrList v else []
      | none => ([] : List JVal))) :
    a ∈ agentsOf session := by
  unfold agentsOf
  cases hg : jGet "agents" session with
  | none => rw [hg] at ha; exact ha
  | some v =>
      rw [hg] at ha
      have ha' : a ∈ (if truthy v = true then jArrList v else []) := ha
      show a ∈ jArrList v
      cases htr : truthy v with
      | true => rw [htr] at ha'; simpa using ha'
      | false => rw [htr] at ha'; simp at ha'

theorem mem_jArrList_agentsOf (session ag : JVal) (a : JVal)
    (hg : jGet "agents" session = some ag) (ha : a ∈ jArrList ag) :
    a ∈ agentsOf session := by
  unfold agentsOf
  rw [hg]
  exact ha

theorem map_fst_jSet_of_lookup (k : String) (v : JVal)
    (l : List (String × JVal)) (h : jLookup k l ≠ none) :
    (jSet k v l).map Prod.fst = l.map Prod.fst := by
  induction l with
  | nil => exact absurd rfl h
  | cons hd tl ih =>
      obtain ⟨k', v'⟩ := hd
      by_cases hk : k' = k
      · simp [jSet, hk]
      · have h' : jLookup k tl ≠ none := by
          intro hn
          apply h
          simp [jLookup, hk, hn]
        simp [jSet, hk, ih h']

theorem addAgent_no_new_file (store : SessionStore) (sid : String) (ad : JVal)
    (now : String) (store' : SessionStore)
    (h : addAgent store sid ad now = some store') :
    store'.map Prod.fst = store.map Prod.fst := by
  obtain ⟨s, X, hs, rfl⟩ := addAgent_shape store sid ad now store' h
  apply map_fst_jSet_of_lookup
  rw [hs]
  exact fun hh => Option.noConfusion hh

theorem addAgent_preserves_inv (store : SessionStore) (sid : String)
    (ad : JVal) (now : String) (store' : SessionStore)
    (hInv : StoreOk store)
    (hA : jGet "parentGkSessionId" ad = some JVal.null ∨
      jGet "parentGkSessionId" ad = some (JVal.str sid))
    (h : addAgent store sid ad now = some store') :
    StoreOk store' := by
  unfold addAgent at h
  cases hg : getSession store sid with
  | none => rw [hg] at h; exact absurd h (by simp)
  | some session =>
      rw [hg] at h
      obtain ⟨hsid, hlook⟩ := getSession_some store sid session hg
      dsimp only [] at h
      have hsh := saveSession_some _ _ _ _ h
      refine storeOk_of_save store sid _ store' hInv ?_ hsh
      rw [agentsOf_reorder_set]
      intro agent hagent
      cases hf : (match jGet "agents" session with
          | some v => if truthy v then jArrList v else []
          | none => ([] : List JVal)).findIdx?
            (fun a => jIsStr (jGet "gkSessionId" a) (agentIdOf sid ad)) with
      | none =>
          rw [hf] at hagent
          rcases List.mem_append.mp hagent with hmem | hmem
          · exact sessionShape_agents sid session (hInv sid session hlook)
              agent (agents_guard_mem session agent hmem)
          · rcases List.mem_singleton.mp hmem with rfl
            exact AgentOk_newAgentObj sid _ ad now hA
      | some i =>
          rw [hf] at hagent
          rcases List.mem_or_eq_of_mem_set hagent with hmem | rfl
          · exact sessionShape_agents sid session (hInv sid session hlook)
              agent (agents_guard_mem session agent hmem)
          · have hi := (List.findIdx?_eq_some_iff_findIdx_eq.mp hf).1
            have hex : (match jGet "agents" session with
                | some v => if truthy v then jArrList v else []
                | none => ([] : List JVal)).getD i (JVal.obj []) ∈
                (match jGet "agents" session with
                  | some v => if truthy v then jArrList v else []
                  | none => ([] : List JVal)) := by
              rw [List.getD_eq_getElem _ _ hi]
              exact List.getElem_mem hi
            have hok := sessionShape_agents sid session (hInv sid session hlook)
              _ (agents_guard_mem session _ hex)
            have hsafe : ∀ k ∈ ([("model",
                  jGetOr "model" ((match jGet "agents" session with
                    | some v => if truthy v then jArrList v else []
                    | none => ([] : List JVal)).getD i (JVal.obj []))
                    (jGetOr "model" ad JVal.null)),
                ("prompt",
                  jGetOr "prompt" ((match jGet "agents" session with
                    | some v => if truthy v then jArrList v else []
                    | none => ([] : List JVal)).getD i (JVal.obj []))
                    (jGetOr "prompt" ad JVal.null))].map Prod.fst),
                k ≠ "parentGkSessionId" ∧ k ≠ "agentType" := by
              intro k hk
              simp only [List.map_cons, List.map_nil, List.mem_cons,
                List.not_mem_nil, or_false] at hk
              rcases hk with rfl | rfl
              · exact ⟨by decide, by decide⟩
              · exact ⟨by decide, by decide⟩
            exact AgentOk_of_safe_update sid _ _ hsafe hok hok.1

theorem updateAgent_preserves_inv (store : SessionStore) (sid aid : String)
    (updates : List (String × JVal)) (store' : SessionStore)
    (hInv : StoreOk store)
    (hsafe : ∀ k ∈ updates.map Prod.fst,
      k ≠ "parentGkSessionId" ∧ k ≠ "agentType")
    (h : updateAgent store sid aid updates = some store') :
    StoreOk store' := by
  unfold updateAgent at h
  split at h
  · exact absurd h (by simp)
  · rename_i session hget
    split at h
    · exact absurd h (by simp)
    · rename_i ag hag
      split at h
      · exact absurd h (by simp)
      · dsimp only [] at h
        split at h
        · exact absurd h (by simp)
        · rename_i i hf
          obtain ⟨hsid, hlook⟩ := getSession_some store sid session hget
          have hsh := saveSession_some _ _ _ _ h
          refine storeOk_of_save store sid _ store' hInv ?_ hsh
          rw [agentsOf_reorder_set]
          intro agent hagent
          rcases List.mem_or_eq_of_mem_set hagent with hmem | rfl
          · exact sessionShape_agents sid session (hInv sid session hlook)
              agent (mem_jArrList_agentsOf session ag agent hag hmem)
          · have hi := (List.findIdx?_eq_some_iff_findIdx_eq.mp hf).1
            have hex : (jArrList ag).getD i (JVal.obj []) ∈ jArrList ag := by
              rw [List.getD_eq_getElem _ _ hi]
              exact List.getElem_mem hi
            have hok := sessionShape_agents sid session (hInv sid session hlook)
              _ (mem_jArrList_agentsOf session ag _ hag hex)
            exact AgentOk_of_safe_update sid _ updates hsafe hok hok.1

theorem endAgentUpdates_safe (result : JVal) (now : String) :
    ∀ k ∈ (endAgentUpdates result now).map Prod.fst,
      k ≠ "parentGkSessionId" ∧ k ≠ "agentType" := by
  intro k hk
  unfold endAgentUpdates at hk
  dsimp only [] at hk
  split at hk <;>
    · simp only [List.map_append, List.map_cons, List.map_nil, List.mem_append,
        List.mem_cons, List.not_mem_nil, or_false] at hk
      rcases hk with hk | hk <;> first
        | (rcases hk with rfl | rfl | rfl | rfl <;> exact ⟨by decide, by decide⟩)
        | (rcases hk with rfl | rfl | rfl | rfl | rfl <;>
            exact ⟨by decide, by decide⟩)
        | (subst hk; exact ⟨by decide, by decide⟩)

theorem endAgent_preserves_inv (store : SessionStore) (sid aid : String)
    (result : JVal) (now : String) (store' : SessionStore)
    (hInv : StoreOk store)
    (h : endAgent store sid aid result now = some store') :
    StoreOk store' :=
  updateAgent_preserves_inv store sid aid _ store' hInv
    (endAgentUpdates_safe result now) h

theorem updateAgentGeminiSession_preserves_inv (store : SessionStore)
    (sid aid gsid : String) (store' : SessionStore)
    (hInv : StoreOk store)
    (h : updateAgentGeminiSession store sid aid gsid = some store') :
    StoreOk store' := by
  unfold updateAgentGeminiSession at h
  split at h
  · exact absurd h (by simp)
  · rename_i session hget
    split at h
    · exact absurd h (by simp)
    · rename_i ag hag
      split at h
      · exact absurd h (by simp)
      · dsimp only [] at h
        split at h
        · exact absurd h (by simp)
        · rename_i i hf
          obtain ⟨hsid, hlook⟩ := getSession_some store sid session hget
          have hsh := saveSession_some _ _ _ _ h
          refine storeOk_of_save store sid _ store' hInv ?_ hsh
          rw [agentsOf_reorder_set]
          intro agent hagent
          rcases List.mem_or_eq_of_mem_set hagent with hmem | rfl
          · exact sessionShape_agents sid session (hInv sid session hlook)
              agent (mem_jArrList_agentsOf session ag agent hag hmem)
          · have hi := (List.findIdx?_eq_some_iff_findIdx_eq.mp hf).1
            have hex : (jArrList ag).getD i (JVal.obj []) ∈ jArrList ag := by
              rw [List.getD_eq_getElem _ _ hi]
              exact List.getElem_mem hi
            have hok := sessionShape_agents sid session (hInv sid session hlook)
              _ (mem_jArrList_agentsOf session ag _ hag hex)
            have hsafe : ∀ k ∈ ([("geminiSessionId",
                  JVal.str gsid)].map Prod.fst),
                k ≠ "parentGkSessionId" ∧ k ≠ "agentType" := by
              intro k hk
              simp only [List.map_cons, List.map_nil, List.mem_cons,
                List.not_mem_nil, or_false] at hk
              subst hk
              exact ⟨by decide, by decide⟩
            exact AgentOk_of_safe_update sid _ _ hsafe hok hok.1

theorem updateAgentPrompt_preserves_inv (store : SessionStore)
    (sid aid prompt : String) (store' : SessionStore)
    (hInv : StoreOk store)
    (h : updateAgentPrompt store sid aid prompt = some store') :
    StoreOk store' := by
  unfold updateAgentPrompt at h
  split at h
  · exact absurd h (by simp)
  · split at h
    · exact absurd h (by simp)
    · split at h
      · exact absurd h (by simp)
      · dsimp only [] at h
        split at h
        · exact absurd h (by simp)
        · split at h
          · exact absurd h (by simp)
          · refine updateAgent_preserves_inv store sid aid _ store' hInv ?_ h
            intro k hk
            simp only [List.map_cons, List.map_nil, List.mem_cons,
              List.not_mem_nil, or_false] at hk
            subst hk
            exact ⟨by decide, by decide⟩

theorem agentsOf_newGeminiSessionObj (a b c : String) (d e : JVal)
    (f g : String) (p : Nat) (i j : JVal) (k : String)
    (l : List (String × JVal)) :
    agentsOf (reorderSessionFields (newGeminiSessionObj a b c d e f g p i j k
      l)) = [] := by
  unfold newGeminiSessionObj
  rw [jSetMany_append]
  exact agentsOf_reorder_set _ _

theorem inv_of_save_new (store : SessionStore) (sid : String)
    (a b c : String) (d e : JVal) (f g : String) (p : Nat) (i j : JVal)
    (k : String) (l : List (String × JVal))
    (hInv : StoreOk store) :
    StoreOk
      ((saveSession store sid (newGeminiSessionObj a b c d e f g p i j k
        l)).getD store) := by
  cases hs : saveSession store sid (newGeminiSessionObj a b c d e f g p i j k
      l) with
  | none => exact hInv
  | some s' =>
      have hsh := saveSession_some _ _ _ _ hs
      show StoreOk s'
      refine storeOk_of_save store sid _ s' hInv ?_ hsh
      rw [agentsOf_newGeminiSessionObj]
      intro agent hagent
      cases hagent

theorem initializeGeminiSession_preserves_inv (st : ManagerState)
    (geminiSessionId geminiParentId : JVal) (cwd : String)
    (activePlan suggestedPlan : JVal) (planDateFormat : String)
    (initialState : List (String × JVal)) (pid : Nat) (now ts rand : String)
    (dateParse : Option JVal → Int)
    (hInv : StoreOk st.sessions) :
    StoreOk
      (initializeGeminiSession st geminiSessionId geminiParentId cwd
        activePlan suggestedPlan planDateFormat initialState pid now ts rand
        dateParse).2.sessions := by
  unfold initializeGeminiSession
  cases hf : findSessionByGeminiId st.sessions geminiSessionId with
  | some fe => exact hInv
  | none => exact inv_of_save_new st.sessions _ _ _ _ _ _ _ _ _ _ _ _ _ hInv

theorem agentsOf_reorder_sub (d : JVal) (agent : JVal)
    (h : agent ∈ agentsOf (reorderSessionFields d)) :
    ∃ a, jLookup "agents" (spreadFields d) = some a ∧ agent ∈ jArrList a := by
  unfold agentsOf at h
  rw [jGet_reorderSessionFields_agents] at h
  cases hg : jLookup "agents" (spreadFields d) with
  | none =>
      rw [hg] at h
      have h' : agent ∈ jArrList (JVal.arr []) := h
      cases h'
  | some a =>
      rw [hg] at h
      have h' : agent ∈ jArrList (if truthy a = true then a else JVal.arr []) :=
        h
      refine ⟨a, rfl, ?_⟩
      cases ht : truthy a with
      | true => rw [ht] at h'; simpa using h'
      | false =>
          rw [ht] at h'
          simp only [Bool.false_eq_true, if_false] at h'
          cases h'

theorem updateSession_preserves_inv (store : SessionStore) (sid : String)
    (updates : List (String × JVal)) (store' : SessionStore)
    (hInv : StoreOk store)
    (hsafe : "agents" ∉ updates.map Prod.fst)
    (h : updateSession store sid updates = some store') :
    StoreOk store' := by
  unfold updateSession at h
  split at h
  · exact absurd h (by simp)
  · rename_i session hget
    obtain ⟨hsid, hlook⟩ := getSession_some store sid session hget
    have hsh := saveSession_some _ _ _ _ h
    refine storeOk_of_save store sid _ store' hInv ?_ hsh
    intro agent hagent
    obtain ⟨a, ha, hmem⟩ := agentsOf_reorder_sub _ _ hagent
    have ha' : jLookup "agents" (jSetMany (spreadFields session) updates) =
        some a := ha
    have hbind := jLookup_mem _ _ _ ha'
    rcases mem_jSetMany _ _ _ hbind with hb | hb
    · exact hInv sid session hlook a hb agent hmem
    · exfalso
      exact hsafe (List.mem_map.mpr ⟨("agents", a), hb, rfl⟩)

/-- Embedding of `endSession` (gk-session-manager.cjs lines 1464-1491)
restricted to its effect on the session files: when the session has a
main agent entry it ends that agent through `endAgent`, otherwise the
session files are left as they are (the project-file and env updates
touch other stores). -/
def endSession (store : SessionStore) (gkSessionId : String) (result : JVal)
    (now : String) : Option SessionStore :=
  match getSession store gkSessionId with
  | none => none
  | some session =>
      let agents := match jGet "agents" session with
        | some v => jArrList v
        | none => []
      match agents.find? (fun a => jIsStr (jGet "agentType" a) "Main Agent" &&
          jIsStr (jGet "gkSessionId" a) gkSessionId) with
      | some _ => some ((endAgent store gkSessionId gkSessionId result
          now).getD store)
      | none => some store

theorem endSession_preserves_inv (store : SessionStore) (sid : String)
    (result : JVal) (now : String) (store' : SessionStore)
    (hInv : StoreOk store)
    (h : endSession store sid result now = some store') :
    StoreOk store' := by
  unfold endSession at h
  split at h
  · exact absurd h (by simp)
  · dsimp only [] at h
    split at h
    · injection h with h
      subst h
      cases he : endAgent store sid sid result now with
      | none => exact hInv
      | some s2 =>
          exact endAgent_preserves_inv store sid sid result now s2 hInv he
    · injection h with h
      subst h
      exact hInv

/-- Embedding of `captureAgentProjectHash` (gk-session-manager.cjs
lines 1331-1377) restricted to its session-file effect: find the
agent by geminiSessionId and set its `geminiProjectHash` when missing,
backfill the session's own `geminiProjectHash` when missing, and save
the parent session when anything changed; `none` models the paths
that return false without writing (reachable `agents` values are
arrays, as elsewhere).  The env update touches another store. -/
def captureAgentProjectHash (store : SessionStore)
    (parentGkSessionId geminiSessionId geminiProjectHash : String) :
    Option SessionStore :=
  if parentGkSessionId = "" ∨ geminiSessionId = "" ∨ geminiProjectHash = ""
  then none
  else match getSession store parentGkSessionId with
  | none => none
  | some session =>
      match jGet "agents" session with
      | none => none
      | some ag =>
          if !truthy ag then none
          else
            let agents := jArrList ag
            let idx := agents.findIdx?
              (fun a => jIsStr (jGet "geminiSessionId" a) geminiSessionId)
            let agentUpd :=
              match idx with
              | some i => !truthyO (jGet "geminiProjectHash"
                  (agents.getD i (JVal.obj [])))
              | none => false
            let agents' :=
              match idx with
              | some i =>
                  if truthyO (jGet "geminiProjectHash"
                      (agents.getD i (JVal.obj [])))
                  then agents
                  else agents.set i (JVal.obj
                    (jSet "geminiProjectHash" (JVal.str geminiProjectHash)
                      (spreadFields (agents.getD i (JVal.obj [])))))
              | none => agents
            let backfill := !truthyO (jGet "geminiProjectHash" session)
            if !agentUpd && !backfill then some store
            else
              saveSession store parentGkSessionId
                (JVal.obj (jSet "agents" (JVal.arr agents')
                  (if backfill
                   then jSet "geminiProjectHash" (JVal.str geminiProjectHash)
                     (spreadFields session)
                   else spreadFields session)))

theorem captureAgentProjectHash_preserves_inv (store : SessionStore)
    (pgk gsid hash : String) (store' : SessionStore)
    (hInv : StoreOk store)
    (h : captureAgentProjectHash store pgk gsid hash = some store') :
    StoreOk store' := by
  unfold captureAgentProjectHash at h
  split at h
  · exact absurd h (by simp)
  · split at h
    · exact absurd h (by simp)
    · rename_i session hget
      split at h
      · exact absurd h (by simp)
      · rename_i ag hag
        split at h
        · exact absurd h (by simp)
        · dsimp only [] at h
          split at h
          · injection h with h
            subst h
            exact hInv
          · obtain ⟨hsid, hlook⟩ := getSession_some store pgk session hget
            have hsh := saveSession_some _ _ _ _ h
            refine storeOk_of_save store pgk _ store' hInv ?_ hsh
            rw [agentsOf_reorder_set]
            intro agent hagent
            cases hf : (jArrList ag).findIdx?
                (fun a => jIsStr (jGet "geminiSessionId" a) gsid) with
            | none =>
                rw [hf] at hagent
                exact sessionShape_agents pgk session (hInv pgk session hlook)
                  agent (mem_jArrList_agentsOf session ag agent hag hagent)
            | some i =>
                rw [hf] at hagent
                have hagent2 : agent ∈ (if truthyO (jGet "geminiProjectHash"
                    ((jArrList ag).getD i (JVal.obj []))) = true
                  then jArrList ag
                  else (jArrList ag).set i (JVal.obj
                    (jSet "geminiProjectHash" (JVal.str hash)
                      (spreadFields ((jArrList ag).getD i (JVal.obj [])))))) :=
                  hagent
                by_cases hcap : truthyO (jGet "geminiProjectHash"
                    ((jArrList ag).getD i (JVal.obj []))) = true
                · rw [if_pos hcap] at hagent2
                  exact sessionShape_agents pgk session
                    (hInv pgk session hlook) agent
                    (mem_jArrList_agentsOf session ag agent hag hagent2)
                · rw [if_neg hcap] at hagent2
                  rcases List.mem_or_eq_of_mem_set hagent2 with hmem | rfl
                  · exact sessionShape_agents pgk session
                      (hInv pgk session hlook) agent
                      (mem_jArrList_agentsOf session ag agent hag hmem)
                  · have hi := (List.findIdx?_eq_some_iff_findIdx_eq.mp hf).1
                    have hex : (jArrList ag).getD i (JVal.obj []) ∈
                        jArrList ag := by
                      rw [List.getD_eq_getElem _ _ hi]
                      exact List.getElem_mem hi
                    have hok := sessionShape_agents pgk session
                      (hInv pgk session hlook) _
                      (mem_jArrList_agentsOf session ag _ hag hex)
                    have hsafe : ∀ k ∈ ([("geminiProjectHash",
                          JVal.str hash)].map Prod.fst),
                        k ≠ "parentGkSessionId" ∧ k ≠ "agentType" := by
                      intro k hk
                      simp only [List.map_cons, List.map_nil, List.mem_cons,
                        List.not_mem_nil, or_false] at hk
                      subst hk
                      exact ⟨by decide, by decide⟩
                    exact AgentOk_of_safe_update pgk _ _ hsafe hok hok.1

/-- The `updates` object built by `captureGeminiProjectHash`
(gk-session-manager.cjs lines 1258-1268). -/
def captureUpdates (session gph gtd : JVal) (now : String) :
    List (String × JVal) :=
  (if !truthyO (jGet "geminiProjectHash" session) && truthy gph
   then [("geminiProjectHash", gph)] else []) ++
  (if !truthyO (jGet "geminiTempDir" session) && truthy gtd
   then [("geminiTempDir", gtd)] else []) ++
  (if !truthyO (jGet "geminiProjectHashCapturedAt" session)
   then [("geminiProjectHashCapturedAt", JVal.str now)] else [])

/-- Embedding of `captureGeminiProjectHash` (lines 1249-1296)
restricted to its session-file effect: skip when both values are
already captured or nothing is missing, else merge the capture
updates into the session via `updateSession`.  The project-file and
env updates touch other stores. -/
def captureGeminiProjectHash (store : SessionStore) (gkSessionId : String)
    (gph gtd : JVal) (now : String) : Option SessionStore :=
  match getSession store gkSessionId with
  | none => none
  | some session =>
      if truthyO (jGet "geminiProjectHash" session) &&
          truthyO (jGet "geminiTempDir" session) then some store
      else if (captureUpdates session gph gtd now).isEmpty then some store
      else updateSession store gkSessionId (captureUpdates session gph gtd now)

theorem captureUpdates_no_agents (session gph gtd : JVal) (now : String) :
    "agents" ∉ (captureUpdates session gph gtd now).map Prod.fst := by
  intro hmem
  unfold captureUpdates at hmem
  rw [List.map_append, List.map_append] at hmem
  rcases List.mem_append.mp hmem with hk | hk
  · rcases List.mem_append.mp hk with hk | hk
    · split at hk <;> simp at hk
    · split at hk <;> simp at hk
  · split at hk <;> simp at hk

theorem captureGeminiProjectHash_preserves_inv (store : SessionStore)
    (sid : String) (gph gtd : JVal) (now : String) (store' : SessionStore)
    (hInv : StoreOk store)
    (h : captureGeminiProjectHash store sid gph gtd now = some store') :
    StoreOk store' := by
  unfold captureGeminiProjectHash at h
  split at h
  · exact absurd h (by simp)
  · split at h
    · injection h with h
      subst h
      exact hInv
    · split at h
      · injection h with h
        subst h
        exact hInv
      · exact updateSession_preserves_inv store sid _ store' hInv
          (captureUpdates_no_agents _ _ _ _) h

/-- Embedding of `writeSessionState` (gk-config-utils.cjs lines
143-157): merge `state` over the existing session and save, or save
`state` as a fresh session file when none exists; `none` models the
false return on a falsy id. -/
def writeSessionState (store : SessionStore) (gkSessionId : String)
    (state : List (String × JVal)) : Option SessionStore :=
  if gkSessionId = "" then none
  else match getSession store gkSessionId with
  | some existing =>
      saveSession store gkSessionId
        (JVal.obj (jSetMany (spreadFields existing) state))
  | none => saveSession store gkSessionId (JVal.obj (jSetMany [] state))

/-- Embedding of `markReminderInjected` (the dev-rules BeforeAgent
hook): skip for sub-agents, else read the session state (or start
from an empty object), stamp `lastReminderTimestamp`, and write it
back through `writeSessionState`. -/
def markReminderInjected (store : SessionStore) (sessionId : String)
    (isSubAgent : Bool) (now : String) : Option SessionStore :=
  if sessionId = "" then some store
  else if isSubAgent then some store
  else
    writeSessionState store sessionId
      (jSet "lastReminderTimestamp" (JVal.str now)
        (match getSession store sessionId with
         | some s => spreadFields s
         | none => []))

theorem markReminderInjected_preserves_inv (store : SessionStore)
    (sid : String) (isSub : Bool) (now : String) (store' : SessionStore)
    (hInv : StoreOk store)
    (h : markReminderInjected store sid isSub now = some store') :
    StoreOk store' := by
  unfold markReminderInjected at h
  split at h
  · injection h with h; subst h; exact hInv
  · split at h
    · injection h with h; subst h; exact hInv
    · unfold writeSessionState at h
      split at h
      · exact absurd h (by simp)
      · split at h
        · rename_i existing hget
          obtain ⟨hsid, hlook⟩ := getSession_some store sid existing hget
          have hsh := saveSession_some _ _ _ _ h
          refine storeOk_of_save store sid _ store' hInv ?_ hsh
          intro agent hagent
          obtain ⟨a, ha, hmem⟩ := agentsOf_reorder_sub _ _ hagent
          have ha' : jLookup "agents"
              (jSetMany (spreadFields existing)
                (jSet "lastReminderTimestamp" (JVal.str now)
                  (spreadFields existing))) = some a := ha
          have hbind := jLookup_mem _ _ _ ha'
          rcases mem_jSetMany _ _ _ hbind with hb | hb
          · exact hInv sid existing hlook a hb agent hmem
          · rcases mem_jSet _ _ _ _ hb with hb2 | hb2
            · have hk : "agents" = "lastReminderTimestamp" :=
                congrArg Prod.fst hb2
              exact absurd hk (by decide)
            · exact hInv sid existing hlook a hb2 agent hmem
        · rename_i hget
          have hsh := saveSession_some _ _ _ _ h
          refine storeOk_of_save store sid _ store' hInv ?_ hsh
          intro agent hagent
          obtain ⟨a, ha, hmem⟩ := agentsOf_reorder_sub _ _ hagent
          have ha' : jLookup "agents"
              (jSetMany []
                (jSet "lastReminderTimestamp" (JVal.str now) [])) = some a := ha
          simp [jSetMany, jSet, jLookup] at ha'

/-- One session-file mutation performed by the hook scripts of the
repository, acting on the session files of one project data
directory.  The constructors mirror every session-writing call site
of the scripts: session initialization (gk-session-init.cjs line
459), `addAgent` for the main agent with `parentGkSessionId: null`
(gk-session-init.cjs lines 472-482) and for a sub-agent filed under
its parent's id with `parentGkSessionId` equal to that id (lines
271-281), `updateAgentGeminiSession` for a pre-registered sub-agent
(line 248), `updateAgentPrompt` on resume (line 311),
`captureAgentProjectHash` (line 329) and `captureGeminiProjectHash`
(line 366) on BeforeModel, `endAgent` (gk-session-end.cjs line 149)
and `endSession` (line 206), and `writeSessionState` through
`markReminderInjected` in the dev-rules BeforeAgent hook. -/
inductive HookStep : SessionStore → SessionStore → Prop where
  | initGemini : ∀ (st : ManagerState) (geminiSessionId geminiParentId : JVal)
      (cwd : String) (activePlan suggestedPlan : JVal)
      (planDateFormat : String) (initialState : List (String × JVal))
      (pid : Nat) (now ts rand : String) (dateParse : Option JVal → Int),
      HookStep st.sessions
        (initializeGeminiSession st geminiSessionId geminiParentId cwd
          activePlan suggestedPlan planDateFormat initialState pid now ts
          rand dateParse).2.sessions
  | addMain : ∀ (store : SessionStore) (sid : String) (ad : JVal)
      (now : String) (store' : SessionStore),
      jGet "parentGkSessionId" ad = some JVal.null →
      addAgent store sid ad now = some store' →
      HookStep store store'
  | addSub : ∀ (store : SessionStore) (sid : String) (ad : JVal)
      (now : String) (store' : SessionStore),
      jGet "parentGkSessionId" ad = some (JVal.str sid) →
      addAgent store sid ad now = some store' →
      HookStep store store'
  | setAgentGemini : ∀ (store : SessionStore) (sid aid gsid : String)
      (store' : SessionStore),
      updateAgentGeminiSession store sid aid gsid = some store' →
      HookStep store store'
  | setAgentPrompt : ∀ (store : SessionStore) (sid aid prompt : String)
      (store' : SessionStore),
      updateAgentPrompt store sid aid prompt = some store' →
      HookStep store store'
  | endStep : ∀ (store : SessionStore) (sid aid : String) (result : JVal)
      (now : String) (store' : SessionStore),
      endAgent store sid aid result now = some store' →
      HookStep store store'
  | endSessionStep : ∀ (store : SessionStore) (sid : String) (result : JVal)
      (now : String) (store' : SessionStore),
      endSession store sid result now = some store' →
      HookStep store store'
  | captureAgent : ∀ (store : SessionStore) (pgk gsid hash : String)
      (store' : SessionStore),
      captureAgentProjectHash store pgk gsid hash = some store' →
      HookStep store store'
  | captureGemini : ∀ (store : SessionStore) (sid : String) (gph gtd : JVal)
      (now : String) (store' : SessionStore),
      captureGeminiProjectHash store sid gph gtd now = some store' →
      HookStep store store'
  | reminder : ∀ (store : SessionStore) (sid : String) (isSub : Bool)
      (now : String) (store' : SessionStore),
      markReminderInjected store sid isSub now = some store' →
      HookStep store store'

/-- A collection of session files reachable from an empty project data
directory by the hook operations. -/
inductive ReachableStore : SessionStore → Prop where
  | empty : ReachableStore []
  | step : ∀ store store', ReachableStore store → HookStep store store' →
      ReachableStore store'

theorem reachable_store_ok (store : SessionStore) (h : ReachableStore store) :
    StoreOk store := by
  induction h with
  | empty =>
      intro sid sess hl
      cases hl
  | step s s' hr hs ih =>
      cases hs with
      | initGemini st gsid gpid cwd ap sp pdf ist pid now ts rand dp =>
          exact initializeGeminiSession_preserves_inv st gsid gpid cwd ap sp
            pdf ist pid now ts rand dp ih
      | addMain s sid ad now s' hp hcall =>
          exact addAgent_preserves_inv s sid ad now s' ih (Or.inl hp) hcall
      | addSub s sid ad now s' hp hcall =>
          exact addAgent_preserves_inv s sid ad now s' ih (Or.inr hp) hcall
      | setAgentGemini s sid aid gsid s' hcall =>
          exact updateAgentGeminiSession_preserves_inv s sid aid gsid s' ih
            hcall
      | setAgentPrompt s sid aid prompt s' hcall =>
          exact updateAgentPrompt_preserves_inv s sid aid prompt s' ih hcall
      | endStep s sid aid result now s' hcall =>
          exact endAgent_preserves_inv s sid aid result now s' ih hcall
      | endSessionStep s sid result now s' hcall =>
          exact endSession_preserves_inv s sid result now s' ih hcall
      | captureAgent s pgk gsid hash s' hcall =>
          exact captureAgentProjectHash_preserves_inv s pgk gsid hash s' ih
            hcall
      | captureGemini s sid gph gtd now s' hcall =>
          exact captureGeminiProjectHash_preserves_inv s sid gph gtd now s' ih
            hcall
      | reminder s sid isSub now s' hcall =>
          exact markReminderInjected_preserves_inv s sid isSub now s' ih hcall

theorem reachable_inv (store : SessionStore) (h : ReachableStore store) :
    SubAgentInvariant store :=
  storeOk_subAgentInvariant store (reachable_store_ok store h)

/-- C6: sub-agents are tracked inside their parent's session record
and never in a file of their own.  For every collection of session
files reachable from an empty project data directory by the hook
operations (session initialization, main- and sub-agent registration,
gemini-id and prompt updates, project-hash captures, the dev-rules
reminder stamp, agent and session termination), every agent entry
whose `parentGkSessionId` is non-null sits in the `agents` array of
the session file whose id equals that parent id, with agentType
"Sub Agent"; and the registration path (`addAgent`, under which
sub-agents are filed into the parent's file) creates no separate
session file: every successful call leaves the set of session files
unchanged. -/
theorem claim_C6_subagents_tracked_in_parent :
    (∀ store, ReachableStore store → SubAgentInvariant store) ∧
    (∀ store sid ad now store', addAgent store sid ad now = some store' →
      store'.map Prod.fst = store.map Prod.fst) :=
  ⟨reachable_inv, addAgent_no_new_file⟩

/-- Witness for C6: the invariant holds for the concrete store created
by a session initialization from an empty directory, and a concrete
sub-agent registration adds no session file. -/
theorem claim_C6_witness :
    SubAgentInvariant
      (initializeGeminiSession ⟨[], [], emptyEnv⟩ (JVal.str "g1") JVal.null
        "/a" JVal.null JVal.null "fmt" [] 7 "t0" "1" "ab12"
        (fun _ => 0)).2.sessions ∧
    ((addAgent [("s1", JVal.obj [("agents", JVal.arr [])])] "s1"
        (JVal.obj [("parentGkSessionId", JVal.str "s1")]) "t1").getD
      []).map Prod.fst =
      ([("s1", JVal.obj [("agents", JVal.arr [])])].map Prod.fst) :=
  ⟨claim_C6_subagents_tracked_in_parent.1 _
    (ReachableStore.step _ _ ReachableStore.empty
      (HookStep.initGemini ⟨[], [], emptyEnv⟩ (JVal.str "g1") JVal.null "/a"
        JVal.null JVal.null "fmt" [] 7 "t0" "1" "ab12" (fun _ => 0))),
   claim_C6_subagents_tracked_in_parent.2 _ "s1"
     (JVal.obj [("parentGkSessionId", JVal.str "s1")]) "t1" _ rfl⟩

/-- A file-system operation performed by the persistence layer. -/
inductive FsOp where
  | write (path content : String)
  | rename (src dst : String)

/-- A file system: each path maps to its content, if the file exists. -/
abbrev FileSys := String → Option String

/-- The effect of a completed `fs.writeFileSync`. -/
def fsWrite (fs : FileSys) (p c : String) : FileSys :=
  fun q => if q = p then some c else fs q

/-- The effect of one completed operation (`fs.renameSync` moves the
source over the destination). -/
def runOp (fs : FileSys) : FsOp → FileSys
  | .write p c => fsWrite fs p c
  | .rename src dst => fun q =>
      if q = dst then fs src
      else if q = src then none
      else fs q

/-- The file system after a whole operation trace completes. -/
def runOps (fs : FileSys) (ops : List FsOp) : FileSys := ops.foldl runOp fs

/-- The possible states left by an operation that fails partway: an
interrupted in-place write leaves some prefix of the new content at
the path (`writeFileSync` truncates, then writes); a rename is atomic,
so an interrupted rename leaves the file system as it was. -/
def partialOp (fs : FileSys) : FsOp → FileSys → Prop
  | .write p c, fs' =>
      ∃ c0, List.isPrefixOf c0.data c.data = true ∧ fs' = fsWrite fs p c0
  | .rename _ _, fs' => fs' = fs

/-- `Crashed fs ops fs'`: executing `ops` from `fs` stops somewhere -
before any operation, in the middle of one, or after finishing a
prefix of the trace - leaving the file system `fs'`. -/
inductive Crashed : FileSys → List FsOp → FileSys → Prop where
  | here : ∀ fs ops, Crashed fs ops fs
  | mid : ∀ fs op ops fs', partialOp fs op fs' → Crashed fs (op :: ops) fs'
  | next : ∀ fs op ops fs', Crashed (runOp fs op) ops fs' →
      Crashed fs (op :: ops) fs'

/-- The write trace of `saveSession` (gk-session-manager.cjs lines
578-596): write the serialized session to `{sessionPath}.tmp`, then
rename the temp file over the session file. -/
def saveSessionOps (projectDir gkSessionId content : String) : List FsOp :=
  [FsOp.write (getSessionPath projectDir gkSessionId ++ ".tmp") content,
   FsOp.rename (getSessionPath projectDir gkSessionId ++ ".tmp")
     (getSessionPath projectDir gkSessionId)]

/-- The write trace of `saveProject` (lines 859-873): one direct
`writeFileSync` to the project file, with no temp file and no rename. -/
def saveProjectOps (projectDir gkProjectHash content : String) : List FsOp :=
  [FsOp.write (getProjectPath projectDir gkProjectHash) content]

/-- `ENV_PATH` (line 179): the `.env` file inside the `.gemini`
directory. -/
def envPath (geminiDir : String) : String := geminiDir ++ "/.env"

/-- The write trace of `updateEnv` (lines 441-468): one direct
`writeFileSync` to `ENV_PATH`, with no temp file and no rename. -/
def updateEnvOps (geminiDir content : String) : List FsOp :=
  [FsOp.write (envPath geminiDir) content]

theorem tmp_ne_dest (s : String) : s ++ ".tmp" ≠ s := by
  intro h
  have hl := congrArg String.length h
  rw [String.length_append] at hl
  have h4 : ".tmp".length = 4 := rfl
  omega

theorem saveSession_atomic (fs0 : FileSys) (pd sid c : String) (fs' : FileSys)
    (h : Crashed fs0 (saveSessionOps pd sid c) fs') :
    fs' (getSessionPath pd sid) = fs0 (getSessionPath pd sid) ∨
    fs' (getSessionPath pd sid) = some c := by
  have hne : getSessionPath pd sid ≠ getSessionPath pd sid ++ ".tmp" :=
    fun hh => tmp_ne_dest _ hh.symm
  cases h with
  | here => left; rfl
  | mid _ _ _ _ hp =>
      obtain ⟨c0, hpre, rfl⟩ := hp
      left
      show (if getSessionPath pd sid = getSessionPath pd sid ++ ".tmp"
        then some c0 else fs0 (getSessionPath pd sid)) = _
      rw [if_neg hne]
  | next _ _ _ _ h2 =>
      cases h2 with
      | here =>
          left
          show (if getSessionPath pd sid = getSessionPath pd sid ++ ".tmp"
            then some c else fs0 (getSessionPath pd sid)) = _
          rw [if_neg hne]
      | mid _ _ _ _ hp =>
          obtain rfl := hp
          left
          show (if getSessionPath pd sid = getSessionPath pd sid ++ ".tmp"
            then some c else fs0 (getSessionPath pd sid)) = _
          rw [if_neg hne]
      | next _ _ _ _ h3 =>
          cases h3 with
          | here =>
              right
              show (if getSessionPath pd sid = getSessionPath pd sid
                then fsWrite fs0 (getSessionPath pd sid ++ ".tmp") c
                  (getSessionPath pd sid ++ ".tmp")
                else _) = some c
              rw [if_pos rfl]
              show (if getSessionPath pd sid ++ ".tmp" =
                getSessionPath pd sid ++ ".tmp" then some c else _) = some c
              rw [if_pos rfl]

/-- C3 (amended): the session file write is guarded by rename-based
atomic replace - every crash state of the `saveSession` trace leaves
the session file either with its previous content or with the
complete new content, and the completed trace stores the new
content.  (Project files and the `.env` file are written in place;
see the counterexample.) -/
theorem claim_C3_amended :
    (∀ (fs0 : FileSys) (pd sid c : String) (fs' : FileSys),
      Crashed fs0 (saveSessionOps pd sid c) fs' →
      fs' (getSessionPath pd sid) = fs0 (getSessionPath pd sid) ∨
      fs' (getSessionPath pd sid) = some c) ∧
    (∀ (fs0 : FileSys) (pd sid c : String),
      runOps fs0 (saveSessionOps pd sid c) (getSessionPath pd sid) = some c) := by
  constructor
  · exact saveSession_atomic
  · intro fs0 pd sid c
    show (if getSessionPath pd sid = getSessionPath pd sid
      then fsWrite fs0 (getSessionPath pd sid ++ ".tmp") c
        (getSessionPath pd sid ++ ".tmp")
      else _) = some c
    rw [if_pos rfl]
    show (if getSessionPath pd sid ++ ".tmp" =
      getSessionPath pd sid ++ ".tmp" then some c else _) = some c
    rw [if_pos rfl]

/-- Witness for C3: a concrete crash state (before anything ran) of a
concrete saveSession trace keeps the old session file content. -/
theorem claim_C3_witness :
    (fun _ : String => (none : Option String)) (getSessionPath "my-app" "s1") =
      (fun _ : String => (none : Option String))
        (getSessionPath "my-app" "s1") ∨
    (fun _ : String => (none : Option String)) (getSessionPath "my-app" "s1") =
      some "data" :=
  claim_C3_amended.1 (fun _ => none) "my-app" "s1" "data" (fun _ => none)
    (Crashed.here _ _)

/-- The project file store before the counterexample write: the
project file holds `olddata`. -/
def fsOldProject : FileSys :=
  fun q => if q = getProjectPath "my-app" "abcd" then some "olddata" else none

/-- Counterexample for C3: `saveProject` writes the project file in
place (no temp file, no rename), so a write that fails partway can
leave the project file with content that is neither the previous
content nor the new content. -/
theorem claim_C3_counterexample :
    ∃ fs', Crashed fsOldProject (saveProjectOps "my-app" "abcd" "newdata") fs' ∧
      fs' (getProjectPath "my-app" "abcd") ≠
        fsOldProject (getProjectPath "my-app" "abcd") ∧
      fs' (getProjectPath "my-app" "abcd") ≠ some "newdata" := by
  refine ⟨fsWrite fsOldProject (getProjectPath "my-app" "abcd") "newd",
    Crashed.mid _ _ _ _ ⟨"newd", by decide, rfl⟩, ?_, ?_⟩
  · show (if getProjectPath "my-app" "abcd" = getProjectPath "my-app" "abcd"
      then some "newd" else _) ≠ _
    rw [if_pos rfl]
    show _ ≠ (if getProjectPath "my-app" "abcd" = getProjectPath "my-app" "abcd"
      then some "olddata" else none)
    rw [if_pos rfl]
    intro hh
    injection hh with hh
    exact absurd hh (by decide)
  · show (if getProjectPath "my-app" "abcd" = getProjectPath "my-app" "abcd"
      then some "newd" else _) ≠ _
    rw [if_pos rfl]
    intro hh
    injection hh with hh
    exact absurd hh (by decide)

/-- Exit code of `main` in gk-session-init.cjs as a function of its
branch conditions (abstracted to booleans): an exception caught by the
outer try (line 495), the sub-agent registration branches (lines 251,
283, 287), and the remaining exit sites of the main-agent path (lines
317-492), every one of which is `process.exit(0)`. -/
def sessionInitMainExit (raised subReg subParentMissing subExisting
    nonBeforeModel : Bool) : Nat :=
  if raised then 0
  else if subReg then
    if subParentMissing then 0
    else if subExisting then
      if nonBeforeModel then 0 else 0
    else 0
  else 0

/-- Exit code of `main` in gk-session-end.cjs: the catch block (line
226), the non-SessionEnd event (line 100), the sub-agent branch (line
162), the missing-session branch (line 198), and the normal end (line
223) all exit 0. -/
def sessionEndMainExit (raised notSessionEnd isSub noSession : Bool) : Nat :=
  if raised then 0
  else if notSessionEnd then 0
  else if isSub then 0
  else if noSession then 0
  else 0

/-- Exit code of `main` in gk-discord-notify.cjs: the catch block
(line 397) and every skip branch (missing webhook, empty stdin,
non-SessionEnd event, deduplication, notifications disabled, role not
notified, main agent not notified) and the successful send all exit
0. -/
def discordNotifyMainExit (raised noWebhook emptyStdin notSessionEnd
    alreadyNotified notifyDisabled skipRole skipMain : Bool) : Nat :=
  if raised then 0
  else if noWebhook then 0
  else if emptyStdin then 0
  else if notSessionEnd then 0
  else if alreadyNotified then 0
  else if notifyDisabled then 0
  else if skipRole then 0
  else if skipMain then 0
  else 0

/-- Exit code of `main` in send-discord.cjs (lines 131-156): exit 1
when the message argument is missing or falsy (line 136), when
`DISCORD_WEBHOOK_URL` is missing or falsy (line 144), or when sending
fails (line 153); exit 0 on success (line 150).  `none` models a
missing value, `sendOk` whether `sendDiscordEmbed` resolved. -/
def sendDiscordMainExit (message webhookUrl : Option String)
    (sendOk : Bool) : Nat :=
  match message with
  | none => 1
  | some m =>
      if m = "" then 1
      else
        match webhookUrl with
        | none => 1
        | some w =>
            if w = "" then 1
            else if sendOk then 0 else 1

/-- Counterexample for C5: running send-discord.cjs with no message
argument is an error path handled by printing a usage message, yet it
terminates with exit code 1, not 0. -/
theorem claim_C5_counterexample :
    sendDiscordMainExit none (some "url") true = 1 ∧
    sendDiscordMainExit none (some "url") true ≠ 0 :=
  ⟨rfl, by decide⟩

/-- C5 (amended): the three hook scripts (gk-session-init.cjs,
gk-session-end.cjs, gk-discord-notify.cjs) exit 0 on every path,
including every caught-exception path; the manual utility
send-discord.cjs instead exits 0 exactly when a non-empty message
argument and a non-empty webhook URL are present and the send
succeeds, and exits 1 on each of its error paths. -/
theorem claim_C5_amended :
    (∀ a b c d e, sessionInitMainExit a b c d e = 0) ∧
    (∀ a b c d, sessionEndMainExit a b c d = 0) ∧
    (∀ a b c d e f g h, discordNotifyMainExit a b c d e f g h = 0) ∧
    (∀ message webhookUrl sendOk,
      sendDiscordMainExit message webhookUrl sendOk = 0 ↔
        (∃ m, message = some m ∧ m ≠ "") ∧
        (∃ w, webhookUrl = some w ∧ w ≠ "") ∧ sendOk = true) := by
  refine ⟨by decide, by decide, by decide, ?_⟩
  intro message webhookUrl sendOk
  constructor
  · intro h
    match message with
    | none => exact absurd h (by simp [sendDiscordMainExit])
    | some m =>
        by_cases hm : m = ""
        · rw [show sendDiscordMainExit (some m) webhookUrl sendOk = 1 by
            simp [sendDiscordMainExit, hm]] at h
          exact absurd h (by decide)
        · match webhookUrl with
          | none =>
              exact absurd h (by simp [sendDiscordMainExit, hm])
          | some w =>
              by_cases hw : w = ""
              · rw [show sendDiscordMainExit (some m) (some w) sendOk = 1 by
                  simp [sendDiscordMainExit, hm, hw]] at h
                exact absurd h (by decide)
              · cases hs : sendOk with
                | false =>
                    rw [hs] at h
                    rw [show sendDiscordMainExit (some m) (some w) false = 1 by
                      simp [sendDiscordMainExit, hm, hw]] at h
                    exact absurd h (by decide)
                | true =>
                    exact ⟨⟨m, rfl, hm⟩, ⟨w, rfl, hw⟩, rfl⟩
  · rintro ⟨⟨m, rfl, hm⟩, ⟨w, rfl, hw⟩, rfl⟩
    simp [sendDiscordMainExit, hm, hw]

/-- Witness for C5: a concrete successful send-discord invocation
exits 0, and concrete hook-script runs exit 0. -/
theorem claim_C5_witness :
    sendDiscordMainExit (some "hello") (some "url") true = 0 ∧
    sessionEndMainExit true false false false = 0 :=
  ⟨(claim_C5_amended.2.2.2 (some "hello") (some "url") true).mpr
      ⟨⟨"hello", rfl, by decide⟩, ⟨"url", rfl, by decide⟩, rfl⟩,
   claim_C5_amended.2.1 true false false false⟩

/-- The request options built by both `sendDiscordEmbed`
implementations (send-discord.cjs lines 101-110,
gk-discord-notify.cjs lines 97-106). -/
structure HttpRequest where
  hostname : String
  port : Nat
  path : String
  method : String

/-- The parts of the parsed webhook URL the request uses. -/
structure ParsedUrl where
  hostname : String
  port : Option Nat
  protocolIsHttps : Bool
  pathname : String
  search : String

/-- Embedding of the `options` object: `url.port || (url.protocol ===
"https:" ? 443 : 80)` and `url.pathname + url.search`, method POST. -/
def discordRequestOptions (url : ParsedUrl) : HttpRequest :=
  { hostname := url.hostname,
    port := match url.port with
      | some p => p
      | none => if url.protocolIsHttps then 443 else 80,
    path := url.pathname ++ url.search,
    method := "POST" }

/-- What the single request issued by `sendDiscordEmbed` can come back
with: a response with a status code, or a request error. -/
inductive HttpOutcome where
  | response (status : Int)
  | failure (e : String)

/-- Embedding of `sendDiscordEmbed` (send-discord.cjs lines 73-125 and
gk-discord-notify.cjs lines 93-121, identical request and settlement
logic): the list of requests issued (exactly one `protocol.request`)
and the settlement of the returned promise - resolve when `200 <=
statusCode < 300`, reject with `Discord API error: {status}` on any
other status, reject with the request error on `req.on("error")`. -/
def sendDiscordEmbed (url : ParsedUrl) (outcome : HttpOutcome) :
    List HttpRequest × Except String Unit :=
  ([discordRequestOptions url],
   match outcome with
   | .response status =>
       if 200 ≤ status ∧ status < 300 then Except.ok ()
       else Except.error ("Discord API error: " ++ toString status)
   | .failure e => Except.error e)

/-- C7: `sendDiscordEmbed` performs a single HTTP POST to the
configured webhook URL, resolves exactly when the response status
code is at least 200 and strictly below 300, and rejects on every
other status code and on any request error. -/
theorem claim_C7_send_discord_embed :
    ∀ (url : ParsedUrl) (outcome : HttpOutcome),
      (sendDiscordEmbed url outcome).1 = [discordRequestOptions url] ∧
      (discordRequestOptions url).method = "POST" ∧
      (∀ s, outcome = HttpOutcome.response s →
        ((sendDiscordEmbed url outcome).2 = Except.ok () ↔
          200 ≤ s ∧ s < 300)) ∧
      (∀ e, outcome = HttpOutcome.failure e →
        (sendDiscordEmbed url outcome).2 = Except.error e) := by
  intro url outcome
  refine ⟨rfl, rfl, ?_, ?_⟩
  · rintro s rfl
    show (if 200 ≤ s ∧ s < 300 then Except.ok ()
      else Except.error ("Discord API error: " ++ toString s)) =
        Except.ok () ↔ 200 ≤ s ∧ s < 300
    constructor
    · intro h
      by_cases hc : 200 ≤ s ∧ s < 300
      · exact hc
      · rw [if_neg hc] at h
        exact Except.noConfusion h
    · intro hc
      rw [if_pos hc]
  · rintro e rfl
    rfl

/-- Witness for C7: a concrete 204 response resolves, a concrete
request error rejects with that error. -/
theorem claim_C7_witness :
    ((sendDiscordEmbed ⟨"discord.com", none, true, "/api/webhooks/1", ""⟩
        (HttpOutcome.response 204)).2 = Except.ok () ↔
      200 ≤ (204 : Int) ∧ (204 : Int) < 300) ∧
    (sendDiscordEmbed ⟨"discord.com", none, true, "/api/webhooks/1", ""⟩
        (HttpOutcome.failure "socket hang up")).2 =
      Except.error "socket hang up" :=
  ⟨(claim_C7_send_discord_embed
      ⟨"discord.com", none, true, "/api/webhooks/1", ""⟩
      (HttpOutcome.response 204)).2.2.1 204 rfl,
   (claim_C7_send_discord_embed
      ⟨"discord.com", none, true, "/api/webhooks/1", ""⟩
      (HttpOutcome.failure "socket hang up")).2.2.2 "socket hang up" rfl⟩
